import Mathlib

/-!
Cart store and checkout orchestrator of the storefront (`frontend/src/App.js`).

A shallow embedding of the cart reducers (`addToCart`, `removeFromCart`,
`updateQuantity`), the derived totals (`getTotalAmount`, `getTotalItems`) and the
payment flow (`processPayment` and the gateway completion `handler`) of the React
component `App`, together with the properties of the specification that concern them.

Conventions of the embedding.

* React state updates `setCart(prev => f(prev))` are the pure reducers `f`.
* A cart line is the object `{ ...product, quantity }`; it is kept as the pair of the
  product snapshot and the quantity.  The catalog query never selects a field called
  `quantity`, so the spread and the pair carry the same information.
* Quantities are whole numbers and are kept as integers; every sum in which they take part
  (`item.quantity + 1`, `total + item.quantity`, `price * item.quantity`) is computed as
  the operator computes it on doubles, so that it is exact only up to `2^53`.
* Prices go through `parseFloat` and double arithmetic.  Finite doubles are kept as the
  rational number they denote and every arithmetic result is rounded to binary64
  (round to nearest, ties to even); `NaN` and the infinities are explicit.
* A request is kept as the object handed to `JSON.stringify`, a response as its HTTP status
  and the value `JSON.parse` gives for its body; the rest of the checkout is the list of
  the actions it performs (alerts, requests, gateway calls, state updates), in order.
* `console.log` / `console.error` calls are not observable by the user and are left out.
-/

namespace Undhyu

/-! ## Data model -/

/-- The money object `{ amount, currencyCode }` of the storefront API.  The amount is a
decimal string; `none` stands for an absent (`undefined` / `null`) amount. -/
structure Money where
  amount : Option String
  currencyCode : String
  deriving DecidableEq, Repr

/-- The object `variants.edges[i].node`. `price = none` stands for an absent price. -/
structure Variant where
  id : String
  price : Option Money
  compareAtPrice : Option Money
  availableForSale : Bool
  deriving DecidableEq, Repr

/-- The object `images.edges[i].node`. -/
structure Image where
  url : String
  altText : Option String
  deriving DecidableEq, Repr

/-- A product as mapped from the catalog response (`edge.node`). -/
structure Product where
  id : String
  title : String
  handle : String
  description : String
  images : List Image
  variants : List Variant
  vendor : String
  productType : String
  deriving DecidableEq, Repr

/-- A cart line `{ ...product, quantity }`. -/
structure CartItem where
  product : Product
  quantity : Int
  deriving DecidableEq, Repr

/-- The field `item.id` of a cart line. -/
def CartItem.id (item : CartItem) : String := item.product.id

/-- The state `cart`: lines in the order in which they were first added. -/
abbrev Cart := List CartItem

/-! ## JavaScript numbers -/

/-- A JavaScript number: `NaN`, an infinity, or a finite double, kept as the rational
number it denotes (the two zeros are not distinguished: they are `===` to each other). -/
inductive JSNum where
  | nan
  | inf (negative : Bool)
  | fin (value : ℚ)
  deriving DecidableEq, Repr

/-- The power `2 ^ e` for an integer exponent. -/
def pow2 (e : ℤ) : ℚ :=
  if 0 ≤ e then ((2 ^ e.toNat : ℕ) : ℚ) else 1 / ((2 ^ (-e).toNat : ℕ) : ℚ)

/-- The power `10 ^ e` for an integer exponent. -/
def pow10 (e : ℤ) : ℚ :=
  if 0 ≤ e then ((10 ^ e.toNat : ℕ) : ℚ) else 1 / ((10 ^ (-e).toNat : ℕ) : ℚ)

/-- Binary logarithm by repeated halving; `fuel` bounds the number of halvings. -/
def log2Fuel : ℕ → ℕ → ℕ
  | 0, _ => 0
  | fuel + 1, n => if 2 ≤ n then log2Fuel fuel (n / 2) + 1 else 0

/-- The largest `k` with `2 ^ k ≤ n` (and `0` for `n = 0`). -/
def natLog2 (n : ℕ) : ℕ := log2Fuel n n

/-- The least `k` with `n ≤ 2 ^ k`. -/
def clog2 (n : ℕ) : ℕ := if n ≤ 1 then 0 else natLog2 (n - 1) + 1

/-- The binary exponent of a positive rational: the `e` with `2 ^ e ≤ a < 2 ^ (e + 1)`. -/
def floorLog2 (a : ℚ) : ℤ :=
  if 1 ≤ a then (natLog2 ⌊a⌋₊ : ℤ) else -(clog2 ⌈a⁻¹⌉₊ : ℤ)

/-- Rounding to the nearest integer, ties to the even one. -/
def roundHalfEven (m : ℚ) : ℤ :=
  if m - ⌊m⌋ < 1 / 2 then ⌊m⌋
  else if 1 / 2 < m - ⌊m⌋ then ⌊m⌋ + 1
  else if ⌊m⌋ % 2 = 0 then ⌊m⌋ else ⌊m⌋ + 1

/-- The unit in the last place of binary64 at magnitude `a`: 52 fraction bits below the
binary exponent, which is at least `-1022` (below it the doubles are subnormal). -/
def ulp (a : ℚ) : ℚ := pow2 (max (floorLog2 a) (-1022) - 52)

/-- The double nearest to a rational (IEEE 754 binary64, round to nearest, ties to even;
magnitudes that round to `2 ^ 1024` overflow to an infinity). -/
def toDouble (x : ℚ) : JSNum :=
  if x = 0 then .fin 0
  else
    let r := (roundHalfEven (|x| / ulp |x|) : ℚ) * ulp |x|
    if pow2 1024 ≤ r then .inf (decide (x < 0)) else .fin (if x < 0 then -r else r)

/-- The operator `+` on numbers. -/
def JSNum.add : JSNum → JSNum → JSNum
  | .nan, _ => .nan
  | _, .nan => .nan
  | .inf s, .inf t => if s = t then .inf s else .nan
  | .inf s, .fin _ => .inf s
  | .fin _, .inf t => .inf t
  | .fin a, .fin b => toDouble (a + b)

/-- The operator `*` on numbers. -/
def JSNum.mul : JSNum → JSNum → JSNum
  | .nan, _ => .nan
  | _, .nan => .nan
  | .inf s, .inf t => .inf (s != t)
  | .inf s, .fin b => if b = 0 then .nan else .inf (s != decide (b < 0))
  | .fin a, .inf t => if a = 0 then .nan else .inf (decide (a < 0) != t)
  | .fin a, .fin b => toDouble (a * b)

/-- The function `Math.round`: the nearest integer, ties towards `+∞`. -/
def mathRound : JSNum → JSNum
  | .fin q => .fin (⌊q + 1 / 2⌋ : ℤ)
  | x => x

/-- A quantity as a number. -/
def JSNum.ofInt (n : ℤ) : JSNum := .fin n

/-- A number that is a double: not a rational strictly between two doubles. -/
def JSNum.IsDouble : JSNum → Prop
  | .fin q => toDouble q = .fin q
  | _ => True

/-- The white space and line terminators that `parseFloat` skips at the start. -/
def isStrWhiteSpace (c : Char) : Bool :=
  [0x09, 0x0A, 0x0B, 0x0C, 0x0D, 0x20, 0xA0, 0x1680, 0x2028, 0x2029, 0x202F, 0x205F,
    0x3000, 0xFEFF].contains c.toNat || (0x2000 ≤ c.toNat && c.toNat ≤ 0x200A)

/-- The longest run of decimal digits at the start of the text: its value (continuing
`value`), the number of digits read (continuing `count`) and the rest of the text. -/
def takeDigits : List Char → ℕ → ℕ → ℕ × ℕ × List Char
  | [], value, count => (value, count, [])
  | c :: cs, value, count =>
    if c.isDigit then takeDigits cs (10 * value + (c.toNat - 48)) (count + 1)
    else (value, count, c :: cs)

/-- The value of an `ExponentPart` (`e` or `E`, an optional sign, digits) at the start of
the text, and `0` when there is none. -/
def parseExponent : List Char → ℤ
  | [] => 0
  | c :: cs =>
    if c = 'e' ∨ c = 'E' then
      match cs with
      | '-' :: ds => if (takeDigits ds 0 0).2.1 = 0 then 0 else -((takeDigits ds 0 0).1 : ℤ)
      | '+' :: ds => if (takeDigits ds 0 0).2.1 = 0 then 0 else ((takeDigits ds 0 0).1 : ℤ)
      | ds => if (takeDigits ds 0 0).2.1 = 0 then 0 else ((takeDigits ds 0 0).1 : ℤ)
    else 0

/-- The digits, fraction and exponent of an unsigned `StrDecimalLiteral` prefix, or `NaN`
when the text starts with none. -/
def parseUnsignedDecimal (negative : Bool) (cs : List Char) : JSNum :=
  let whole := takeDigits cs 0 0
  let fraction : ℕ × ℕ × List Char :=
    match whole.2.2 with
    | '.' :: rest => takeDigits rest 0 0
    | rest => (0, 0, rest)
  if whole.2.1 = 0 ∧ fraction.2.1 = 0 then .nan
  else
    let v : ℚ := ((whole.1 : ℚ) + (fraction.1 : ℚ) / ((10 ^ fraction.2.1 : ℕ) : ℚ))
      * pow10 (parseExponent fraction.2.2)
    toDouble (if negative then -v else v)

/-- The global function `parseFloat` on a string: leading white space is skipped, the
longest prefix that is a decimal literal is read, and the result is `NaN` when there is
no such prefix. -/
def parseFloat (s : String) : JSNum :=
  match s.toList.dropWhile isStrWhiteSpace with
  | '-' :: cs =>
    if "Infinity".toList.isPrefixOf cs then .inf true else parseUnsignedDecimal true cs
  | '+' :: cs =>
    if "Infinity".toList.isPrefixOf cs then .inf false else parseUnsignedDecimal false cs
  | cs =>
    if "Infinity".toList.isPrefixOf cs then .inf false else parseUnsignedDecimal false cs

/-! ## Cart reducers -/

/-- The expression `item.quantity + 1`: the sum as `+` computes it on doubles, read back
as the whole number it is.  For a quantity that is a double the sum is finite and whole
(`incrementQuantity_faithful`), so that nothing is lost in reading it back; the other
branch keeps the totality of the function. -/
def incrementQuantity (quantity : ℤ) : ℤ :=
  match (JSNum.ofInt quantity).add (.fin 1) with
  | .fin sum => ⌊sum⌋
  | _ => quantity

/-- The reducer passed to `setCart` by `addToCart(product)` (the call then shows the
alert "Product added to cart!", which does not touch the cart). -/
def addToCart (prevCart : Cart) (product : Product) : Cart :=
  match prevCart.find? (fun item => item.id == product.id) with
  | some _ =>
    prevCart.map (fun item =>
      if item.id = product.id then { item with quantity := incrementQuantity item.quantity }
      else item)
  | none => prevCart ++ [{ product := product, quantity := 1 }]

/-- The reducer passed to `setCart` by `removeFromCart(productId)`. -/
def removeFromCart (prevCart : Cart) (productId : String) : Cart :=
  prevCart.filter (fun item => item.id != productId)

/-- The effect of `updateQuantity(productId, newQuantity)` on the cart. -/
def updateQuantity (prevCart : Cart) (productId : String) (newQuantity : Int) : Cart :=
  if newQuantity = 0 then removeFromCart prevCart productId
  else
    prevCart.map (fun item =>
      if item.id = productId then { item with quantity := newQuantity } else item)

/-- The reduction `cart.reduce((total, item) => total + item.quantity, 0)`, with `+` the
addition of doubles. -/
def getTotalItems (cart : Cart) : JSNum :=
  cart.foldl (fun total item => total.add (.ofInt item.quantity)) (.fin 0)

/-- A user action on the cart. -/
inductive CartOp where
  | add (product : Product)
  | remove (productId : String)
  | update (productId : String) (newQuantity : Int)
  deriving DecidableEq, Repr

/-- The cart after one user action. -/
def applyOp (cart : Cart) : CartOp → Cart
  | .add product => addToCart cart product
  | .remove productId => removeFromCart cart productId
  | .update productId newQuantity => updateQuantity cart productId newQuantity

/-- The cart after a sequence of user actions, starting from the empty cart
(`useState([])`). -/
def runOps (ops : List CartOp) : Cart := ops.foldl applyOp []

/-- An update whose new quantity is negative; the `-` and `+` buttons never issue one. -/
def CartOp.negativeUpdate : CartOp → Bool
  | .update _ newQuantity => decide (newQuantity < 0)
  | _ => false

/-- Well-formedness of a cart: at most one line per product id, every quantity at least 1. -/
def WellFormed (cart : Cart) : Prop :=
  (cart.map CartItem.id).Nodup ∧ ∀ item ∈ cart, 1 ≤ item.quantity

/-! ## Totals -/

/-- An exception thrown by the code or by the platform. -/
inductive JSError where
  | typeError
  | syntaxError
  | networkError
  | error (message : String)
  deriving DecidableEq, Repr

deriving instance DecidableEq for Except

/-- The expression `parseFloat(item.variants.edges[0]?.node.price.amount || 0)`.
Without a first variant the optional chain yields `undefined`, and `undefined || 0`,
like an absent or empty amount, is `0`; a first variant without a price object makes
`.amount` throw a `TypeError`. -/
def unitPrice (item : CartItem) : Except JSError JSNum :=
  match item.product.variants with
  | [] => .ok (.fin 0)
  | variant :: _ =>
    match variant.price with
    | none => .error .typeError
    | some money =>
      match money.amount with
      | none => .ok (.fin 0)
      | some amount => if amount = "" then .ok (.fin 0) else .ok (parseFloat amount)

/-- The reducer of `getTotalAmount`: `(total, item) => total + price * item.quantity`
with `price` the unit price of the line. -/
def addLine (total : JSNum) (item : CartItem) : Except JSError JSNum := do
  let price ← unitPrice item
  pure (total.add (price.mul (.ofInt item.quantity)))

/-- The function `getTotalAmount`: `cart.reduce(addLine, 0)`. -/
def getTotalAmount (cart : Cart) : Except JSError JSNum :=
  cart.foldlM addLine (.fin 0)

/-- A line whose price is missing: no variant, or a price without an amount. -/
def priceMissing (item : CartItem) : Bool :=
  match item.product.variants with
  | [] => true
  | variant :: _ =>
    match variant.price with
    | none => false
    | some money => money.amount = none ∨ money.amount = some ""

/-- A line whose first variant lacks the price object. -/
def priceObjectAbsent (item : CartItem) : Bool :=
  match item.product.variants with
  | [] => false
  | variant :: _ => variant.price.isNone

/-! ## Checkout -/

/-- A value produced by `JSON.parse` / `response.json()`. -/
inductive JSON where
  | null
  | bool (b : Bool)
  | num (n : JSNum)
  | str (s : String)
  | arr (items : List JSON)
  | obj (members : List (String × JSON))

/-- The property read `value[key]` for the keys the checkout reads (`id`, `amount`,
`currency`, `success`): `none` is `undefined`, and reading a property of `null` throws
a `TypeError`.  Only objects carry such keys. -/
def JSON.getProp (value : JSON) (key : String) : Except JSError (Option JSON) :=
  match value with
  | .null => .error .typeError
  | .obj members => .ok (members.lookup key)
  | _ => .ok none

/-- Truthiness of a property value (`if (result.success)`). -/
def truthy : Option JSON → Bool
  | none => false
  | some .null => false
  | some (.bool b) => b
  | some (.num n) => decide (n ≠ .fin 0 ∧ n ≠ .nan)
  | some (.str s) => decide (s ≠ "")
  | some (.arr _) => true
  | some (.obj _) => true

/-- One element of the `cart` list sent to the backend. -/
structure LineSummary where
  id : String
  title : String
  quantity : Int
  price : JSNum
  handle : String
  deriving DecidableEq, Repr

/-- The object serialised into the body of `POST /create-razorpay-order`. -/
structure OrderRequest where
  amount : JSNum
  currency : String
  cart : List LineSummary
  deriving DecidableEq, Repr

/-- The payment result handed to the completion handler by the gateway. -/
structure PaymentResponse where
  razorpay_order_id : String
  razorpay_payment_id : String
  razorpay_signature : String
  deriving DecidableEq, Repr

/-- The object serialised into the body of `POST /verify-payment`. -/
structure VerifyRequest where
  razorpay_order_id : String
  razorpay_payment_id : String
  razorpay_signature : String
  cart : List LineSummary
  deriving DecidableEq, Repr

/-- The `options` object given to `new window.Razorpay`.  The completion handler is a
closure over the cart of the render in which `processPayment` ran: `handlerCart`. -/
structure RazorpayOptions where
  key : String
  amount : Option JSON
  currency : Option JSON
  name : String
  description : String
  order_id : Option JSON
  handlerCart : Cart
  themeColor : String

/-- An observable action of the checkout code, in program order. -/
inductive Event where
  | alert (message : String)
  | createOrder (request : OrderRequest)
  | newRazorpay (options : RazorpayOptions)
  | rzpOpen
  | verifyPayment (request : VerifyRequest)
  | setCart (cart : Cart)
  | setShowCart (shown : Bool)

/-- The outcome of a `fetch` and of reading its body: a rejection (network failure), or
a response with its HTTP status and the result of parsing its body as JSON (`none` when
the body is not valid JSON). -/
inductive FetchOutcome where
  | failure
  | response (status : Nat) (body : Option JSON)

/-- The property `response.ok`: the status is in the range 200 to 299. -/
def statusOk (status : Nat) : Bool := decide (200 ≤ status ∧ status ≤ 299)

/-- What the environment does during one run of `processPayment`: the outcome of the
order-creation call, and whether `checkout.js` has defined `window.Razorpay` (otherwise
`new window.Razorpay` throws a `TypeError`; the loaded widget is taken not to throw). -/
structure CheckoutEnv where
  orderCreation : FetchOutcome
  razorpayLoaded : Bool

/-- The component state touched by the checkout. -/
structure AppState where
  cart : Cart
  showCart : Bool
  deriving DecidableEq, Repr

/-- The list `cart.map(item => ({ id, title, quantity, price, handle }))`. -/
def cartSummary : Cart → Except JSError (List LineSummary)
  | [] => .ok []
  | item :: rest => do
    let price ← unitPrice item
    let summaries ← cartSummary rest
    pure ({ id := item.id, title := item.product.title, quantity := item.quantity,
            price := price, handle := item.product.handle } :: summaries)

/-- The constant `RAZORPAY_KEY_ID`. -/
def RAZORPAY_KEY_ID : String := "rzp_live_NIogFPd28THyOF"

/-- The object literal `options` built from the parsed order. -/
def razorpayOptions (cart : Cart) (orderData : JSON) : Except JSError RazorpayOptions := do
  let amount ← orderData.getProp "amount"
  let currency ← orderData.getProp "currency"
  let orderId ← orderData.getProp "id"
  pure { key := RAZORPAY_KEY_ID, amount := amount, currency := currency,
         name := "Undhyu.com", description := "Authentic Indian Fashion",
         order_id := orderId, handlerCart := cart, themeColor := "#ea580c" }

/-- The `try` block of `processPayment`: the events performed, and whether the block
completed or threw. -/
def processPaymentTry (cart : Cart) (totalAmount : JSNum) (env : CheckoutEnv) :
    List Event × Except JSError Unit :=
  match cartSummary cart with
  | .error e => ([], .error e)
  | .ok summaries =>
    let request : OrderRequest :=
      { amount := mathRound (totalAmount.mul (.fin 100)), currency := "INR",
        cart := summaries }
    match env.orderCreation with
    | .failure => ([.createOrder request], .error .networkError)
    | .response status body =>
      if statusOk status = false then
        ([.createOrder request], .error (.error "Failed to create order"))
      else
        match body with
        | none => ([.createOrder request], .error .syntaxError)
        | some orderData =>
          match razorpayOptions cart orderData with
          | .error e => ([.createOrder request], .error e)
          | .ok options =>
            if env.razorpayLoaded then
              ([.createOrder request, .newRazorpay options, .rzpOpen], .ok ())
            else ([.createOrder request], .error .typeError)

/-- The function `processPayment`: the events it performs.  The result is an error only
when `getTotalAmount`, which runs outside the `try`, throws. -/
def processPayment (cart : Cart) (env : CheckoutEnv) : Except JSError (List Event) := do
  let totalAmount ← getTotalAmount cart
  if totalAmount = .fin 0 then
    pure [.alert "Please add items to cart"]
  else
    match processPaymentTry cart totalAmount env with
    | (events, .ok _) => pure events
    | (events, .error _) =>
      pure (events ++ [.alert "Failed to process payment. Please try again."])


/-- The message of the two failure alerts of the completion handler. -/
def verificationFailedMessage (response : PaymentResponse) : String :=
  "‚ùå Payment verification failed. Please contact our support team with payment ID: "
    ++ response.razorpay_payment_id

/-- The message of the success alert of the completion handler. -/
def paymentSuccessfulMessage : String :=
  "üéâ Payment successful! Your order has been placed successfully. You will receive confirmation shortly."

/-- The `try` block of the completion handler. -/
def handlerTry (cart : Cart) (response : PaymentResponse) (verification : FetchOutcome) :
    List Event × Except JSError Unit :=
  match cartSummary cart with
  | .error e => ([], .error e)
  | .ok summaries =>
    let request : VerifyRequest :=
      { razorpay_order_id := response.razorpay_order_id,
        razorpay_payment_id := response.razorpay_payment_id,
        razorpay_signature := response.razorpay_signature,
        cart := summaries }
    match verification with
    | .failure => ([.verifyPayment request], .error .networkError)
    | .response _ none => ([.verifyPayment request], .error .syntaxError)
    | .response _ (some result) =>
      match result.getProp "success" with
      | .error e => ([.verifyPayment request], .error e)
      | .ok success =>
        if truthy success then
          ([.verifyPayment request, .setCart [], .alert paymentSuccessfulMessage], .ok ())
        else
          ([.verifyPayment request, .alert (verificationFailedMessage response)], .ok ())

/-- The completion handler `options.handler(response)`, closed over `cart`. -/
def handler (cart : Cart) (response : PaymentResponse) (verification : FetchOutcome) :
    List Event :=
  [.setShowCart false, .alert "Processing payment... Please wait."] ++
    match handlerTry cart response verification with
    | (events, .ok _) => events
    | (events, .error _) => events ++ [.alert (verificationFailedMessage response)]

/-- The effect of one event on the component state. -/
def Event.apply (state : AppState) : Event → AppState
  | .setCart cart => { state with cart := cart }
  | .setShowCart shown => { state with showCart := shown }
  | _ => state

/-- The component state after a run of events. -/
def runEvents (state : AppState) (events : List Event) : AppState :=
  events.foldl Event.apply state

/-- The event is a request to the order-creation endpoint. -/
def Event.isCreateOrder : Event → Bool
  | .createOrder _ => true
  | _ => false

/-- The event constructs or opens the gateway widget. -/
def Event.isGateway : Event → Bool
  | .newRazorpay _ => true
  | .rzpOpen => true
  | _ => false

/-- The event is a request to the verification endpoint. -/
def Event.isVerify : Event → Bool
  | .verifyPayment _ => true
  | _ => false

/-- The event shows the given message to the user. -/
def Event.isAlert (message : String) : Event → Bool
  | .alert shown => decide (shown = message)
  | _ => false

/-- The relation between a cart line and its summary in a request. -/
def Summarises (item : CartItem) (line : LineSummary) : Prop :=
  line.id = item.id ∧ line.title = item.product.title ∧ line.quantity = item.quantity ∧
    line.handle = item.product.handle ∧ unitPrice item = .ok line.price

/-- The sum of price × quantity over the summaries, accumulated as `getTotalAmount` does. -/
def summaryTotal (lines : List LineSummary) : JSNum :=
  lines.foldl (fun total line => total.add (line.price.mul (.ofInt line.quantity))) (.fin 0)

/-- The alert of the `catch` block of `processPayment`. -/
def paymentFailedMessage : String := "Failed to process payment. Please try again."

/-- The gateway options carry none of order id, amount and currency. -/
def Event.gatewayWithoutOrder : Event → Bool
  | .newRazorpay options =>
    options.order_id.isNone && options.amount.isNone && options.currency.isNone
  | _ => false

/-- The messages shown to the user by a run of events, in order. -/
def alerts : List Event → List String
  | [] => []
  | .alert message :: rest => message :: alerts rest
  | _ :: rest => alerts rest

/-- The progress notice the completion handler shows before it verifies the payment. -/
def processingMessage : String := "Processing payment... Please wait."

/-! ## Sample data -/

/-- A product with one variant priced `amount`. -/
def sampleProduct (id amount : String) : Product :=
  { id := id, title := id, handle := id, description := "", images := [],
    variants := [{ id := id, price := some { amount := some amount, currencyCode := "INR" },
                   compareAtPrice := none, availableForSale := true }],
    vendor := "", productType := "" }

/-- The cart `[{P1, price 500, qty 2}, {P2, price 300, qty 1}]` of the scenarios. -/
def scenarioCart : Cart :=
  [{ product := sampleProduct "P1" "500.0", quantity := 2 },
   { product := sampleProduct "P2" "300.0", quantity := 1 }]

/-- Three lines priced 0.1, 0.2 and 0.3, one of each. -/
def tenthsCart : Cart :=
  [{ product := sampleProduct "A" "0.1", quantity := 1 },
   { product := sampleProduct "B" "0.2", quantity := 1 },
   { product := sampleProduct "C" "0.3", quantity := 1 }]

/-- The lines of `tenthsCart`, added in the opposite order. -/
def tenthsCartReversed : Cart :=
  [{ product := sampleProduct "C" "0.3", quantity := 1 },
   { product := sampleProduct "B" "0.2", quantity := 1 },
   { product := sampleProduct "A" "0.1", quantity := 1 }]

/-- The lines of `tenthsCart` with the quantity of the first set to `2^53`. -/
def largeCart : Cart :=
  [{ product := sampleProduct "A" "0.1", quantity := 2 ^ 53 },
   { product := sampleProduct "B" "0.2", quantity := 1 },
   { product := sampleProduct "C" "0.3", quantity := 1 }]

/-- The lines of `largeCart` in the opposite order. -/
def largeCartReversed : Cart :=
  [{ product := sampleProduct "C" "0.3", quantity := 1 },
   { product := sampleProduct "B" "0.2", quantity := 1 },
   { product := sampleProduct "A" "0.1", quantity := 2 ^ 53 }]

/-- A product like `sampleProduct` whose variant's price has the given amount, if any. -/
def productWithAmount (id : String) (amount : Option String) : Product :=
  { sampleProduct id "" with
    variants := [{ id := id, price := some { amount := amount, currencyCode := "INR" },
                   compareAtPrice := none, availableForSale := true }] }

/-- A product like `sampleProduct` whose list of variants is the given one. -/
def productWithVariants (id : String) (variants : List Variant) : Product :=
  { sampleProduct id "" with variants := variants }

/-- The price of the lines of `scenarioCart`, in whole rupees. -/
def scenarioPrice (item : CartItem) : ℕ := if item.id = "P1" then 500 else 300

/-- A payment result as the gateway reports it. -/
def samplePayment : PaymentResponse :=
  { razorpay_order_id := "order_1", razorpay_payment_id := "pay_1",
    razorpay_signature := "sig_1" }

/-! ## Properties of the number model -/

theorem log2Fuel_eq (fuel : ℕ) : ∀ n : ℕ, n ≤ fuel → log2Fuel fuel n = Nat.log 2 n := by
  induction fuel with
  | zero =>
    intro n hn
    have : n = 0 := by omega
    subst this
    simp [log2Fuel]
  | succ fuel ih =>
    intro n hn
    by_cases h2 : 2 ≤ n
    · have hdiv : n / 2 ≤ fuel := by omega
      simp only [log2Fuel, h2, if_true, ih _ hdiv]
      rw [Nat.log_of_one_lt_of_le (by norm_num) h2]
    · simp only [log2Fuel, h2, if_false]
      rw [Nat.log_of_lt (by omega)]

theorem natLog2_eq (n : ℕ) : natLog2 n = Nat.log 2 n :=
  log2Fuel_eq n n le_rfl

theorem clog2_eq (n : ℕ) : clog2 n = Nat.clog 2 n := by
  unfold clog2
  by_cases h : n ≤ 1
  · simp [h, Nat.clog_of_right_le_one h]
  · simp only [h, if_false, natLog2_eq]
    have hn : n - 1 ≠ 0 := by omega
    apply le_antisymm
    · have : 2 ^ Nat.log 2 (n - 1) < n := by
        have := Nat.pow_log_le_self 2 hn
        omega
      exact (Nat.pow_lt_iff_lt_clog (by norm_num)).mp this
    · apply (Nat.le_pow_iff_clog_le (by norm_num)).mp
      have := Nat.lt_pow_succ_log_self (b := 2) (by norm_num) (n - 1)
      omega

theorem floorLog2_eq (a : ℚ) : floorLog2 a = Int.log 2 a := by
  unfold floorLog2 Int.log
  simp only [natLog2_eq, clog2_eq]

theorem pow2_eq (e : ℤ) : pow2 e = (2 : ℚ) ^ e := by
  unfold pow2
  by_cases h : 0 ≤ e
  · simp only [h, if_true]
    obtain ⟨n, rfl⟩ := Int.eq_ofNat_of_zero_le h
    simp
  · simp only [h, if_false]
    have hneg : 0 ≤ -e := by omega
    obtain ⟨n, hn⟩ := Int.eq_ofNat_of_zero_le hneg
    have he : e = -(n : ℤ) := by omega
    subst he
    simp

theorem pow2_pos (e : ℤ) : 0 < pow2 e := by
  rw [pow2_eq]; positivity

theorem ulp_pos (a : ℚ) : 0 < ulp a := pow2_pos _

theorem roundHalfEven_intCast (k : ℤ) : roundHalfEven (k : ℚ) = k := by
  simp [roundHalfEven]

theorem roundHalfEven_le_ceil (m : ℚ) (k : ℤ) (h : m ≤ k) : roundHalfEven m ≤ k := by
  by_cases hm : m = ⌊m⌋
  · rw [hm, roundHalfEven_intCast]
    have : (⌊m⌋ : ℚ) ≤ k := by rw [← hm]; exact h
    exact_mod_cast this
  · have hlt : (⌊m⌋ : ℚ) < k := lt_of_lt_of_le (lt_of_le_of_ne (Int.floor_le m) (Ne.symm hm)) h
    have hlt' : ⌊m⌋ < k := by exact_mod_cast hlt
    unfold roundHalfEven
    split_ifs <;> omega

theorem roundHalfEven_nonneg (m : ℚ) (h : 0 ≤ m) : 0 ≤ roundHalfEven m := by
  have : 0 ≤ ⌊m⌋ := Int.floor_nonneg.mpr h
  unfold roundHalfEven
  split_ifs <;> omega

theorem toDouble_of_scaled_int (x : ℚ) (k : ℤ) (hk : |x| / ulp |x| = k)
    (hlt : |x| < pow2 1024) : toDouble x = .fin x := by
  by_cases hx : x = 0
  · simp [toDouble, hx]
  · have hr : (roundHalfEven (|x| / ulp |x|) : ℚ) * ulp |x| = |x| := by
      rw [hk, roundHalfEven_intCast, ← hk]
      exact div_mul_cancel₀ _ (ulp_pos _).ne'
    simp only [toDouble, hx, if_false, hr, not_le.mpr hlt]
    congr 1
    by_cases hneg : x < 0
    · simp [hneg, abs_of_neg hneg]
    · simp [hneg, abs_of_nonneg (not_lt.mp hneg)]

theorem toDouble_natCast (n : ℕ) (h : n < 2 ^ 53) : toDouble (n : ℚ) = .fin n := by
  by_cases hn : n = 0
  · simp [toDouble, hn]
  have hpos : (0 : ℚ) < n := by exact_mod_cast Nat.pos_of_ne_zero hn
  have hlog : Nat.log 2 n < 53 := Nat.log_lt_of_lt_pow hn h
  have habs : |(n : ℚ)| = n := abs_of_pos hpos
  have hulp : ulp (n : ℚ) = (2 : ℚ) ^ ((Nat.log 2 n : ℤ) - 52) := by
    unfold ulp
    rw [pow2_eq, floorLog2_eq, Int.log_natCast, max_eq_left (by omega)]
  apply toDouble_of_scaled_int _ ((n : ℤ) * 2 ^ (52 - Nat.log 2 n))
  · rw [habs, hulp]
    have h2 : (2 : ℚ) ≠ 0 := by norm_num
    rw [zpow_sub₀ h2, div_div_eq_mul_div]
    push_cast
    have : ((52 - Nat.log 2 n : ℕ) : ℤ) = 52 - (Nat.log 2 n : ℤ) := by omega
    rw [← zpow_natCast (2 : ℚ) (52 - Nat.log 2 n), this, zpow_sub₀ h2]
    simp only [zpow_natCast]
    field_simp
  · rw [habs, pow2_eq]
    have : (n : ℚ) < 2 ^ 53 := by exact_mod_cast h
    calc (n : ℚ) < 2 ^ 53 := this
      _ ≤ (2 : ℚ) ^ (1024 : ℤ) := by norm_num

theorem ulp_eq (a : ℚ) : ulp a = (2 : ℚ) ^ (max (Int.log 2 a) (-1022) - 52) := by
  unfold ulp
  rw [pow2_eq, floorLog2_eq]

/-- The rounded magnitude is again a multiple of its own unit in the last place. -/
theorem rounded_scaled_int (a : ℚ)
    (hpos : 0 < (roundHalfEven (a / ulp a) : ℚ) * ulp a) :
    ∃ k : ℤ, (roundHalfEven (a / ulp a) : ℚ) * ulp a /
      ulp ((roundHalfEven (a / ulp a) : ℚ) * ulp a) = k := by
  have h2 : (2 : ℚ) ≠ 0 := by norm_num
  set e : ℤ := max (Int.log 2 a) (-1022) with he
  set n : ℤ := roundHalfEven (a / ulp a) with hn
  have hu : ulp a = (2 : ℚ) ^ (e - 52) := ulp_eq a
  have hupos : (0 : ℚ) < (2 : ℚ) ^ (e - 52) := by positivity
  have h53 : (2 : ℚ) ^ (53 : ℤ) * (2 : ℚ) ^ (e - 52) = (2 : ℚ) ^ (e + 1) := by
    rw [← zpow_add₀ h2]
    congr 1
    omega
  -- the scaled magnitude is below 2^53, so the rounded mantissa is at most 2^53
  have halt : a < (2 : ℚ) ^ (e + 1) := by
    have := Int.lt_zpow_succ_log_self (R := ℚ) (b := 2) (by norm_num) a
    refine lt_of_lt_of_le (by exact_mod_cast this) ?_
    exact zpow_le_zpow_right₀ (by norm_num) (by omega)
  have hcast : (((2 : ℤ) ^ (53 : ℕ) : ℤ) : ℚ) = (2 : ℚ) ^ (53 : ℤ) := by norm_num
  have hm : a / ulp a ≤ (((2 : ℤ) ^ (53 : ℕ) : ℤ) : ℚ) := by
    rw [hu, div_le_iff₀ hupos, hcast, h53]
    exact halt.le
  have hn53 : n ≤ (2 : ℤ) ^ (53 : ℕ) := roundHalfEven_le_ceil _ _ hm
  rw [hu] at hpos ⊢
  have hρle : (n : ℚ) * (2 : ℚ) ^ (e - 52) ≤ (2 : ℚ) ^ (e + 1) := by
    have : (n : ℚ) ≤ (2 : ℚ) ^ (53 : ℤ) := by
      rw [← hcast]
      exact_mod_cast hn53
    calc (n : ℚ) * (2 : ℚ) ^ (e - 52) ≤ (2 : ℚ) ^ (53 : ℤ) * (2 : ℚ) ^ (e - 52) :=
          mul_le_mul_of_nonneg_right this hupos.le
      _ = (2 : ℚ) ^ (e + 1) := h53
  rw [ulp_eq]
  rcases hρle.lt_or_eq with hlt | heq
  · have hlog : Int.log 2 ((n : ℚ) * (2 : ℚ) ^ (e - 52)) ≤ e := by
      have := (Int.lt_zpow_iff_log_lt (R := ℚ) (b := 2) (by norm_num) hpos).mp
        (by exact_mod_cast hlt)
      omega
    have hle : max (Int.log 2 ((n : ℚ) * (2 : ℚ) ^ (e - 52))) (-1022) ≤ e :=
      max_le hlog (le_max_right _ _)
    generalize max (Int.log 2 ((n : ℚ) * (2 : ℚ) ^ (e - 52))) (-1022) = e' at hle ⊢
    obtain ⟨d, hd⟩ := Int.eq_ofNat_of_zero_le (sub_nonneg.mpr hle)
    refine ⟨n * 2 ^ d, ?_⟩
    have hexp : e - 52 = (e' - 52) + d := by omega
    have he'pos : (0 : ℚ) < (2 : ℚ) ^ (e' - 52) := by positivity
    rw [hexp, zpow_add₀ h2, zpow_natCast]
    push_cast
    field_simp
    ring
  · have hlog : Int.log 2 ((n : ℚ) * (2 : ℚ) ^ (e - 52)) = e + 1 := by
      rw [heq]
      exact_mod_cast Int.log_zpow (R := ℚ) (b := 2) (by norm_num) (e + 1)
    refine ⟨(2 : ℤ) ^ (52 : ℕ), ?_⟩
    have hmax : max (Int.log 2 ((n : ℚ) * (2 : ℚ) ^ (e - 52))) (-1022) = e + 1 := by
      rw [hlog]
      exact max_eq_left (by omega)
    have hcast52 : (((2 : ℤ) ^ (52 : ℕ) : ℤ) : ℚ) = (2 : ℚ) ^ (52 : ℤ) := by norm_num
    rw [hmax, heq, ← zpow_sub₀ h2, hcast52]
    congr 1
    omega

theorem toDouble_fixed (x r : ℚ) (h : toDouble x = .fin r) : toDouble r = .fin r := by
  by_cases hx : x = 0
  · simp only [toDouble, hx, if_true, JSNum.fin.injEq] at h
    subst h
    simp [toDouble]
  simp only [toDouble, hx, if_false] at h
  by_cases hbig : pow2 1024 ≤ (roundHalfEven (|x| / ulp |x|) : ℚ) * ulp |x|
  · simp [hbig] at h
  simp only [hbig, if_false, JSNum.fin.injEq] at h
  have hround : 0 ≤ roundHalfEven (|x| / ulp |x|) :=
    roundHalfEven_nonneg _ (div_nonneg (abs_nonneg x) (ulp_pos _).le)
  have hnn : (0 : ℚ) ≤ (roundHalfEven (|x| / ulp |x|) : ℚ) * ulp |x| :=
    mul_nonneg (by exact_mod_cast hround) (ulp_pos _).le
  rcases hnn.eq_or_lt with hzero | hpos
  · have hr : r = 0 := by
      rw [← h, ← hzero]
      simp
    simp [hr, toDouble]
  · obtain ⟨k, hk⟩ := rounded_scaled_int |x| hpos
    have habs : |r| = (roundHalfEven (|x| / ulp |x|) : ℚ) * ulp |x| := by
      rw [← h]
      split_ifs
      · rw [abs_neg, abs_of_pos hpos]
      · exact abs_of_pos hpos
    apply toDouble_of_scaled_int r k
    · rw [habs]; exact hk
    · rw [habs]; exact not_le.mp hbig

theorem roundHalfEven_ge_floor (m : ℚ) : ⌊m⌋ ≤ roundHalfEven m := by
  unfold roundHalfEven
  split_ifs <;> omega

theorem roundHalfEven_le_floor_add_one (m : ℚ) : roundHalfEven m ≤ ⌊m⌋ + 1 := by
  unfold roundHalfEven
  split_ifs <;> omega

theorem roundHalfEven_le_of_lt_half (m : ℚ) (k : ℤ) (h : m < k + 1 / 2) :
    roundHalfEven m ≤ k := by
  have hfloor : ⌊m⌋ ≤ k := by
    have : m < ((k + 1 : ℤ) : ℚ) := by push_cast; linarith
    have := Int.floor_lt.mpr this
    omega
  rcases hfloor.lt_or_eq with hlt | heq
  · have := roundHalfEven_le_floor_add_one m
    omega
  · have hfrac : m - ⌊m⌋ < 1 / 2 := by rw [heq]; linarith
    simp only [roundHalfEven, hfrac, if_true]
    omega

theorem toDouble_of_pos (x : ℚ) (hx : 0 < x) :
    toDouble x = if pow2 1024 ≤ (roundHalfEven (x / ulp x) : ℚ) * ulp x then .inf false
      else .fin ((roundHalfEven (x / ulp x) : ℚ) * ulp x) := by
  simp [toDouble, hx.ne', abs_of_pos hx, not_lt.mpr hx.le]

theorem toDouble_of_neg (x : ℚ) (hx : 0 < x) :
    toDouble (-x) = if pow2 1024 ≤ (roundHalfEven (x / ulp x) : ℚ) * ulp x then .inf true
      else .fin (-((roundHalfEven (x / ulp x) : ℚ) * ulp x)) := by
  have hneg : -x < 0 := by linarith
  simp [toDouble, hx.ne', abs_of_pos hx, hneg]

theorem log_nonneg_of_one_le (a : ℚ) (ha : 1 ≤ a) : 0 ≤ Int.log 2 a := by
  rw [Int.log_of_one_le_right 2 ha]
  exact Int.natCast_nonneg _

theorem ulp_of_one_le (a : ℚ) (ha : 1 ≤ a) : ulp a = (2 : ℚ) ^ (Int.log 2 a - 52) := by
  rw [ulp_eq, max_eq_left (by have := log_nonneg_of_one_le a ha; omega)]

/-- The rounded magnitude of a number that is at least 1 is at least 1. -/
theorem one_le_rounded (a : ℚ) (ha : 1 ≤ a) :
    1 ≤ (roundHalfEven (a / ulp a) : ℚ) * ulp a := by
  have h2 : (2 : ℚ) ≠ 0 := by norm_num
  have hpos : (0 : ℚ) < a := by linarith
  have hlog := log_nonneg_of_one_le a ha
  rw [ulp_of_one_le a ha]
  set e := Int.log 2 a with he
  have hupos : (0 : ℚ) < (2 : ℚ) ^ (e - 52) := by positivity
  have hle : (2 : ℚ) ^ e ≤ a := by
    have := Int.zpow_log_le_self (R := ℚ) (b := 2) (by norm_num) hpos
    exact_mod_cast this
  have hcast : (((2 : ℤ) ^ (52 : ℕ) : ℤ) : ℚ) = (2 : ℚ) ^ (52 : ℤ) := by norm_num
  have h52 : (2 : ℚ) ^ (52 : ℤ) * (2 : ℚ) ^ (e - 52) = (2 : ℚ) ^ e := by
    rw [← zpow_add₀ h2]
    congr 1
    omega
  have hm : (((2 : ℤ) ^ (52 : ℕ) : ℤ) : ℚ) ≤ a / (2 : ℚ) ^ (e - 52) := by
    rw [le_div_iff₀ hupos, hcast, h52]
    exact hle
  have hfloor : (2 : ℤ) ^ (52 : ℕ) ≤ ⌊a / (2 : ℚ) ^ (e - 52)⌋ := Int.le_floor.mpr hm
  have hround : (2 : ℤ) ^ (52 : ℕ) ≤ roundHalfEven (a / (2 : ℚ) ^ (e - 52)) :=
    hfloor.trans (roundHalfEven_ge_floor _)
  have hroundq : (2 : ℚ) ^ (52 : ℤ) ≤ (roundHalfEven (a / (2 : ℚ) ^ (e - 52)) : ℚ) := by
    rw [← hcast]
    exact_mod_cast hround
  calc (1 : ℚ) ≤ (2 : ℚ) ^ e := one_le_zpow₀ (by norm_num) hlog
    _ = (2 : ℚ) ^ (52 : ℤ) * (2 : ℚ) ^ (e - 52) := h52.symm
    _ ≤ _ := mul_le_mul_of_nonneg_right hroundq hupos.le

theorem toDouble_ge_one (x r : ℚ) (hx : 1 ≤ x) (h : toDouble x = .fin r) : 1 ≤ r := by
  rw [toDouble_of_pos x (by linarith)] at h
  split_ifs at h
  simp only [JSNum.fin.injEq] at h
  rw [← h]
  exact one_le_rounded x hx

theorem log_natCast_le_of_le_pow (n : ℕ) (k : ℕ) (h : n ≤ 2 ^ k) : Nat.log 2 n ≤ k := by
  by_cases hn : n = 0
  · simp [hn]
  · calc Nat.log 2 n ≤ Nat.log 2 (2 ^ k) := Nat.log_mono_right h
      _ = k := Nat.log_pow (by norm_num) k

/-- A natural number up to `2^53` is a whole multiple of its unit in the last place. -/
theorem natCast_scaled_int (n : ℕ) (hn : n ≠ 0) (h : n ≤ 2 ^ 53) :
    ∃ k : ℤ, (n : ℚ) / ulp (n : ℚ) = k := by
  have h2 : (2 : ℚ) ≠ 0 := by norm_num
  have hone : (1 : ℚ) ≤ n := by exact_mod_cast Nat.one_le_iff_ne_zero.mpr hn
  have hlog : Nat.log 2 n ≤ 53 := log_natCast_le_of_le_pow n 53 h
  rw [ulp_of_one_le _ hone, Int.log_natCast]
  rcases hlog.lt_or_eq with hlt | heq
  · refine ⟨(n : ℤ) * 2 ^ (52 - Nat.log 2 n), ?_⟩
    rw [zpow_sub₀ h2, div_div_eq_mul_div]
    push_cast
    have : ((52 - Nat.log 2 n : ℕ) : ℤ) = 52 - (Nat.log 2 n : ℤ) := by omega
    rw [← zpow_natCast (2 : ℚ) (52 - Nat.log 2 n), this, zpow_sub₀ h2]
    simp only [zpow_natCast]
    field_simp
  · have hge : 2 ^ 53 ≤ n := by
      have := Nat.pow_log_le_self 2 hn
      rwa [heq] at this
    have hn53 : n = 2 ^ 53 := le_antisymm h hge
    refine ⟨2 ^ 52, ?_⟩
    rw [heq, hn53]
    norm_num

theorem toDouble_intCast (z : ℤ) (h : |z| ≤ 2 ^ 53) : toDouble (z : ℚ) = .fin z := by
  by_cases hz : z = 0
  · simp [toDouble, hz]
  have hn : z.natAbs ≠ 0 := Int.natAbs_ne_zero.mpr hz
  have hle : z.natAbs ≤ 2 ^ 53 := by
    have : (z.natAbs : ℤ) ≤ 2 ^ 53 := by rw [Int.natCast_natAbs]; exact h
    exact_mod_cast this
  have habs : |(z : ℚ)| = (z.natAbs : ℚ) := by
    rw [Nat.cast_natAbs, Int.cast_abs]
  obtain ⟨k, hk⟩ := natCast_scaled_int z.natAbs hn hle
  apply toDouble_of_scaled_int _ k
  · rw [habs]; exact hk
  · rw [habs, pow2_eq]
    have : (z.natAbs : ℚ) ≤ 2 ^ 53 := by exact_mod_cast hle
    calc (z.natAbs : ℚ) ≤ 2 ^ 53 := this
      _ < (2 : ℚ) ^ (1024 : ℤ) := by norm_num

/-- Above `2^53` the unit in the last place is a whole number. -/
theorem ulp_isInt (a : ℚ) (ha : 2 ^ 53 ≤ a) : ∃ w : ℤ, ulp a = w := by
  have hone : (1 : ℚ) ≤ a := le_trans (by norm_num) ha
  have hpos : (0 : ℚ) < a := by linarith
  have hlog : (53 : ℤ) ≤ Int.log 2 a := by
    apply (Int.zpow_le_iff_le_log (R := ℚ) (b := 2) (by norm_num) hpos).mp
    have : ((2 : ℕ) : ℚ) ^ (53 : ℤ) = 2 ^ 53 := by norm_num
    rw [this]
    exact ha
  obtain ⟨d, hd⟩ := Int.eq_ofNat_of_zero_le (show (0 : ℤ) ≤ Int.log 2 a - 52 by omega)
  refine ⟨2 ^ d, ?_⟩
  rw [ulp_of_one_le a hone, hd]
  push_cast
  exact zpow_natCast 2 d

/-- The double nearest to a whole number is a whole number. -/
theorem toDouble_intCast_isInt (z : ℤ) (r : ℚ) (h : toDouble (z : ℚ) = .fin r) :
    ∃ w : ℤ, r = w := by
  by_cases hsmall : |z| ≤ 2 ^ 53
  · rw [toDouble_intCast z hsmall] at h
    simp only [JSNum.fin.injEq] at h
    exact ⟨z, h.symm⟩
  · have hbig : (2 : ℚ) ^ 53 ≤ |(z : ℚ)| := by
      have : (2 : ℤ) ^ 53 ≤ |z| := by omega
      rw [← Int.cast_abs]
      exact_mod_cast this
    have hz : (z : ℚ) ≠ 0 := by
      intro h0
      rw [h0] at hbig
      norm_num at hbig
    obtain ⟨w, hw⟩ := ulp_isInt _ hbig
    simp only [toDouble, hz, if_false] at h
    split_ifs at h with h1 h2
    · simp only [JSNum.fin.injEq] at h
      exact ⟨-(roundHalfEven (|(z : ℚ)| / ulp |(z : ℚ)|) * w), by rw [← h, hw]; push_cast; ring⟩
    · simp only [JSNum.fin.injEq] at h
      exact ⟨roundHalfEven (|(z : ℚ)| / ulp |(z : ℚ)|) * w, by rw [← h, hw]; push_cast; ring⟩

/-- The rounded magnitude does not pass the next power of two. -/
theorem rounded_le_zpow (a : ℚ) :
    (roundHalfEven (a / ulp a) : ℚ) * ulp a
      ≤ (2 : ℚ) ^ (max (Int.log 2 a) (-1022) + 1) := by
  have h2 : (2 : ℚ) ≠ 0 := by norm_num
  set e : ℤ := max (Int.log 2 a) (-1022) with he
  have hu : ulp a = (2 : ℚ) ^ (e - 52) := ulp_eq a
  have hupos : (0 : ℚ) < (2 : ℚ) ^ (e - 52) := by positivity
  have h53 : (2 : ℚ) ^ (53 : ℤ) * (2 : ℚ) ^ (e - 52) = (2 : ℚ) ^ (e + 1) := by
    rw [← zpow_add₀ h2]
    congr 1
    omega
  have halt : a < (2 : ℚ) ^ (e + 1) := by
    have := Int.lt_zpow_succ_log_self (R := ℚ) (b := 2) (by norm_num) a
    refine lt_of_lt_of_le (by exact_mod_cast this) ?_
    exact zpow_le_zpow_right₀ (by norm_num) (by omega)
  have hcast : (((2 : ℤ) ^ (53 : ℕ) : ℤ) : ℚ) = (2 : ℚ) ^ (53 : ℤ) := by norm_num
  have hm : a / ulp a ≤ (((2 : ℤ) ^ (53 : ℕ) : ℤ) : ℚ) := by
    rw [hu, div_le_iff₀ hupos, hcast, h53]
    exact halt.le
  have hn53 : roundHalfEven (a / ulp a) ≤ (2 : ℤ) ^ (53 : ℕ) := roundHalfEven_le_ceil _ _ hm
  have : (roundHalfEven (a / ulp a) : ℚ) ≤ (2 : ℚ) ^ (53 : ℤ) := by
    rw [← hcast]
    exact_mod_cast hn53
  rw [hu]
  calc (roundHalfEven (a / (2 : ℚ) ^ (e - 52)) : ℚ) * (2 : ℚ) ^ (e - 52)
        ≤ (2 : ℚ) ^ (53 : ℤ) * (2 : ℚ) ^ (e - 52) := by
          rw [← hu]
          exact mul_le_mul_of_nonneg_right this (by rw [hu]; exact hupos.le)
    _ = (2 : ℚ) ^ (e + 1) := h53

theorem rounded_lt_of_log_le (a : ℚ) (h : Int.log 2 a ≤ 1022) :
    (roundHalfEven (a / ulp a) : ℚ) * ulp a < pow2 1024 := by
  rw [pow2_eq]
  calc (roundHalfEven (a / ulp a) : ℚ) * ulp a
        ≤ (2 : ℚ) ^ (max (Int.log 2 a) (-1022) + 1) := rounded_le_zpow a
    _ ≤ (2 : ℚ) ^ (1023 : ℤ) :=
        zpow_le_zpow_right₀ (by norm_num) (by have := max_le h (by norm_num : (-1022 : ℤ) ≤ 1022); omega)
    _ < (2 : ℚ) ^ (1024 : ℤ) := zpow_lt_zpow_right₀ (by norm_num) (by norm_num)

/-- What it means for a non-zero rational to be a double. -/
theorem rounded_of_isDouble (q : ℚ) (hq0 : q ≠ 0) (hq : toDouble q = .fin q) :
    (roundHalfEven (|q| / ulp |q|) : ℚ) * ulp |q| = |q| ∧ |q| < pow2 1024 := by
  simp only [toDouble, hq0, if_false] at hq
  generalize (roundHalfEven (|q| / ulp |q|) : ℚ) * ulp |q| = R at hq ⊢
  split_ifs at hq with h1 h2
  · simp only [JSNum.fin.injEq] at hq
    have habs : |q| = R := by rw [abs_of_neg h2]; linarith
    exact ⟨habs.symm, by rw [habs]; exact not_le.mp h1⟩
  · simp only [JSNum.fin.injEq] at hq
    have habs : |q| = R := by rw [abs_of_nonneg (not_lt.mp h2)]; exact hq.symm
    exact ⟨habs.symm, by rw [habs]; exact not_le.mp h1⟩

theorem toDouble_finite_of_rounded_lt (x : ℚ)
    (h : (roundHalfEven (|x| / ulp |x|) : ℚ) * ulp |x| < pow2 1024) :
    ∃ r, toDouble x = .fin r := by
  by_cases hx : x = 0
  · exact ⟨0, by simp [toDouble, hx]⟩
  · refine ⟨if x < 0 then -((roundHalfEven (|x| / ulp |x|) : ℚ) * ulp |x|)
      else (roundHalfEven (|x| / ulp |x|) : ℚ) * ulp |x|, ?_⟩
    simp only [toDouble, hx, if_false, not_le.mpr h]

/-- Adding 1 to a whole number that is a double does not overflow. -/
theorem rounded_add_one_lt (a b : ℚ) (ha : 2 ^ 53 ≤ a) (hb : 0 < b) (hab : b ≤ a + 1)
    (hround : (roundHalfEven (a / ulp a) : ℚ) * ulp a = a) (hlt : a < pow2 1024) :
    (roundHalfEven (b / ulp b) : ℚ) * ulp b < pow2 1024 := by
  by_cases hlog : Int.log 2 b ≤ 1022
  · exact rounded_lt_of_log_le b hlog
  have h2 : (2 : ℚ) ≠ 0 := by norm_num
  have hone : (1 : ℚ) ≤ a := le_trans (by norm_num) ha
  have hapos : (0 : ℚ) < a := by linarith
  rw [pow2_eq] at hlt
  -- the binary exponent of `a`
  have he53 : (53 : ℤ) ≤ Int.log 2 a := by
    apply (Int.zpow_le_iff_le_log (R := ℚ) (b := 2) (by norm_num) hapos).mp
    have : ((2 : ℕ) : ℚ) ^ (53 : ℤ) = 2 ^ 53 := by norm_num
    rw [this]
    exact ha
  have he1024 : Int.log 2 a < 1024 :=
    (Int.lt_zpow_iff_log_lt (R := ℚ) (b := 2) (by norm_num) hapos).mp (by exact_mod_cast hlt)
  have hu : ulp a = (2 : ℚ) ^ (Int.log 2 a - 52) := ulp_of_one_le a hone
  set e := Int.log 2 a with he
  have hupos : (0 : ℚ) < (2 : ℚ) ^ (e - 52) := by positivity
  have hu2 : (2 : ℚ) ≤ (2 : ℚ) ^ (e - 52) := by
    calc (2 : ℚ) = (2 : ℚ) ^ (1 : ℤ) := by norm_num
      _ ≤ (2 : ℚ) ^ (e - 52) := zpow_le_zpow_right₀ (by norm_num) (by omega)
  have h53 : (2 : ℚ) ^ (53 : ℤ) * (2 : ℚ) ^ (e - 52) = (2 : ℚ) ^ (e + 1) := by
    rw [← zpow_add₀ h2]
    congr 1
    omega
  -- the mantissa of `a` is below 2^53
  set n : ℤ := roundHalfEven (a / ulp a) with hn
  rw [hu] at hround
  have halt : a < (2 : ℚ) ^ (e + 1) := by
    have := Int.lt_zpow_succ_log_self (R := ℚ) (b := 2) (by norm_num) a
    exact_mod_cast this
  have hcast : (((2 : ℤ) ^ (53 : ℕ) : ℤ) : ℚ) = (2 : ℚ) ^ (53 : ℤ) := by norm_num
  have hnlt : n < (2 : ℤ) ^ (53 : ℕ) := by
    have : (n : ℚ) * (2 : ℚ) ^ (e - 52) < (2 : ℚ) ^ (53 : ℤ) * (2 : ℚ) ^ (e - 52) := by
      rw [hround, h53]
      exact halt
    have := lt_of_mul_lt_mul_right this hupos.le
    rw [← hcast] at this
    exact_mod_cast this
  have hnle : (n : ℚ) ≤ (2 : ℚ) ^ (53 : ℤ) - 1 := by
    have : n ≤ (2 : ℤ) ^ (53 : ℕ) - 1 := by omega
    have : (n : ℚ) ≤ (((2 : ℤ) ^ (53 : ℕ) - 1 : ℤ) : ℚ) := by exact_mod_cast this
    rw [Int.cast_sub, hcast] at this
    simpa using this
  have hb_lt : b < (2 : ℚ) ^ (e + 1) := by
    calc b ≤ a + 1 := hab
      _ = (n : ℚ) * (2 : ℚ) ^ (e - 52) + 1 := by rw [hround]
      _ ≤ ((2 : ℚ) ^ (53 : ℤ) - 1) * (2 : ℚ) ^ (e - 52) + 1 := by
          have := mul_le_mul_of_nonneg_right hnle hupos.le
          linarith
      _ < (2 : ℚ) ^ (53 : ℤ) * (2 : ℚ) ^ (e - 52) := by nlinarith
      _ = (2 : ℚ) ^ (e + 1) := h53
  have hlogb : Int.log 2 b < e + 1 :=
    (Int.lt_zpow_iff_log_lt (R := ℚ) (b := 2) (by norm_num) hb).mp (by exact_mod_cast hb_lt)
  have hlogb_eq : Int.log 2 b = e := by omega
  have hub : ulp b = (2 : ℚ) ^ (e - 52) := by
    rw [ulp_eq, hlogb_eq, max_eq_left (by omega)]
  -- the scaled sum stays within half a unit of the mantissa of `a`
  have hu4 : (2 : ℚ) < (2 : ℚ) ^ (e - 52) := by
    calc (2 : ℚ) = (2 : ℚ) ^ (1 : ℤ) := by norm_num
      _ < (2 : ℚ) ^ (e - 52) := zpow_lt_zpow_right₀ (by norm_num) (by omega)
  have hscaled : b / (2 : ℚ) ^ (e - 52) < (n : ℚ) + 1 / 2 := by
    rw [div_lt_iff₀ hupos]
    calc b ≤ a + 1 := hab
      _ = (n : ℚ) * (2 : ℚ) ^ (e - 52) + 1 := by rw [hround]
      _ < ((n : ℚ) + 1 / 2) * (2 : ℚ) ^ (e - 52) := by nlinarith
  have hrb : roundHalfEven (b / (2 : ℚ) ^ (e - 52)) ≤ n :=
    roundHalfEven_le_of_lt_half _ _ hscaled
  rw [hub, pow2_eq]
  calc (roundHalfEven (b / (2 : ℚ) ^ (e - 52)) : ℚ) * (2 : ℚ) ^ (e - 52)
        ≤ (n : ℚ) * (2 : ℚ) ^ (e - 52) :=
          mul_le_mul_of_nonneg_right (by exact_mod_cast hrb) hupos.le
    _ = a := hround
    _ < (2 : ℚ) ^ (1024 : ℤ) := hlt

/-- For a whole number that is a double, the sum with 1 is finite. -/
theorem toDouble_add_one_finite (q : ℤ) (hq : toDouble (q : ℚ) = .fin q) :
    ∃ r, toDouble ((q : ℚ) + 1) = .fin r := by
  by_cases hsmall : |q + 1| ≤ 2 ^ 53
  · exact ⟨_, by rw [show (q : ℚ) + 1 = ((q + 1 : ℤ) : ℚ) by push_cast; ring]
                 exact toDouble_intCast (q + 1) hsmall⟩
  apply toDouble_finite_of_rounded_lt
  have hbig : (2 : ℤ) ^ 53 < |q + 1| := by omega
  have hq53 : (2 : ℤ) ^ 53 ≤ |q| := by
    have := abs_add q 1
    simp only [abs_one] at this
    omega
  have hq0 : (q : ℚ) ≠ 0 := by
    intro h0
    have : q = 0 := by exact_mod_cast h0
    rw [this] at hq53
    norm_num at hq53
  obtain ⟨hround, hlt⟩ := rounded_of_isDouble (q : ℚ) hq0 hq
  apply rounded_add_one_lt |(q : ℚ)| |(q : ℚ) + 1|
  · rw [← Int.cast_abs]
    exact_mod_cast hq53
  · apply abs_pos.mpr
    intro h0
    have : (q + 1 : ℤ) = 0 := by exact_mod_cast h0
    rw [this] at hbig
    norm_num at hbig
  · have := abs_add (q : ℚ) 1
    simpa using this
  · exact hround
  · exact hlt


theorem incrementQuantity_faithful (quantity : ℤ) (h : (JSNum.ofInt quantity).IsDouble) :
    (JSNum.ofInt quantity).add (.fin 1) = .ofInt (incrementQuantity quantity) := by
  obtain ⟨r, hr⟩ := toDouble_add_one_finite quantity h
  have hsum : (JSNum.ofInt quantity).add (.fin 1) = .fin r := hr
  obtain ⟨w, hw⟩ := toDouble_intCast_isInt (quantity + 1) r (by
    rw [← hr]
    congr 1
    push_cast
    ring)
  unfold incrementQuantity
  rw [hsum]
  simp only [JSNum.ofInt, hw, Int.floor_intCast]

theorem incrementQuantity_eq_add_one (quantity : ℤ) (hlow : -(2 ^ 53) ≤ quantity)
    (hhigh : quantity < 2 ^ 53) : incrementQuantity quantity = quantity + 1 := by
  have habs : |quantity + 1| ≤ 2 ^ 53 := abs_le.mpr ⟨by omega, by omega⟩
  have hsum : (JSNum.ofInt quantity).add (.fin 1) = .fin ((quantity + 1 : ℤ) : ℚ) := by
    have := toDouble_intCast (quantity + 1) habs
    simp only [JSNum.ofInt, JSNum.add]
    rw [← this]
    congr 1
    push_cast
    ring
  unfold incrementQuantity
  rw [hsum]
  simp only [Int.floor_intCast]

theorem one_le_incrementQuantity (quantity : ℤ) (h : 1 ≤ quantity) :
    1 ≤ incrementQuantity quantity := by
  unfold incrementQuantity
  cases hsum : (JSNum.ofInt quantity).add (.fin 1) with
  | nan => exact h
  | inf s => exact h
  | fin r =>
    simp only
    have hge : (1 : ℚ) ≤ (quantity : ℚ) + 1 := by
      have : (1 : ℚ) ≤ (quantity : ℚ) := by exact_mod_cast h
      linarith
    have := toDouble_ge_one _ r hge hsum
    exact Int.le_floor.mpr (by exact_mod_cast this)

/-! ## Properties of the cart reducers -/

theorem find?_id_eq_none {cart : Cart} {pid : String} :
    cart.find? (fun item => item.id == pid) = none ↔ ∀ item ∈ cart, item.id ≠ pid := by
  simp [List.find?_eq_none]

theorem addToCart_of_mem (cart : Cart) (p : Product) (h : ∃ item ∈ cart, item.id = p.id) :
    addToCart cart p = cart.map (fun item =>
      if item.id = p.id then { item with quantity := incrementQuantity item.quantity }
      else item) := by
  obtain ⟨item, hmem, hid⟩ := h
  cases hf : cart.find? (fun item => item.id == p.id) with
  | some x => simp only [addToCart, hf]
  | none => exact absurd hid (find?_id_eq_none.mp hf item hmem)

theorem addToCart_of_not_mem (cart : Cart) (p : Product) (h : ∀ item ∈ cart, item.id ≠ p.id) :
    addToCart cart p = cart ++ [{ product := p, quantity := 1 }] := by
  simp only [addToCart, find?_id_eq_none.mpr h]

/-- C2 (as amended): when the cart has a line with the product's id, `addToCart` keeps the
lines in place, leaves every line with another id as it is, and replaces the quantity of
the line with that id by `quantity + 1` as computed on doubles: exactly `quantity + 1` when
the quantity is below `2^53` in absolute value, and for every quantity that is a double the
double sum itself.  Without such a line it appends a line with quantity 1, and adding the
same product twice to a cart that lacks it yields one extra line, with quantity 2. -/
theorem addToCart_spec (cart : Cart) (p : Product) :
    ((∃ item ∈ cart, item.id = p.id) →
      (addToCart cart p).length = cart.length ∧
      ∀ (i : Nat) (h : i < cart.length),
        (cart[i].id ≠ p.id → (addToCart cart p)[i]? = some cart[i]) ∧
        (cart[i].id = p.id →
          (∃ line, (addToCart cart p)[i]? = some line ∧ line.product = cart[i].product ∧
            ((JSNum.ofInt cart[i].quantity).IsDouble →
              JSNum.ofInt line.quantity = (JSNum.ofInt cart[i].quantity).add (.fin 1))) ∧
          (-(2 ^ 53) ≤ cart[i].quantity → cart[i].quantity < 2 ^ 53 →
            (addToCart cart p)[i]? =
              some { product := cart[i].product, quantity := cart[i].quantity + 1 }))) ∧
    ((∀ item ∈ cart, item.id ≠ p.id) →
      addToCart cart p = cart ++ [{ product := p, quantity := 1 }] ∧
      addToCart (addToCart cart p) p = cart ++ [{ product := p, quantity := 2 }]) := by
  refine ⟨?_, ?_⟩
  · intro hmem
    have hadd := addToCart_of_mem cart p hmem
    refine ⟨by simp [hadd], ?_⟩
    intro i h
    have hget : (addToCart cart p)[i]? = some (if cart[i].id = p.id then
        { product := cart[i].product, quantity := incrementQuantity cart[i].quantity }
        else cart[i]) := by
      rw [hadd, List.getElem?_map, List.getElem?_eq_getElem h]
      simp only [Option.map_some']
    refine ⟨?_, ?_⟩
    · intro hne
      rw [hget, if_neg hne]
    · intro hid
      rw [hget, if_pos hid]
      refine ⟨⟨_, rfl, rfl, ?_⟩, ?_⟩
      · intro hdouble
        exact (incrementQuantity_faithful _ hdouble).symm
      · intro hlow hhigh
        rw [incrementQuantity_eq_add_one _ hlow hhigh]
  · intro hnone
    have h1 := addToCart_of_not_mem cart p hnone
    refine ⟨h1, ?_⟩
    have hmem : ∃ item ∈ cart ++ [({ product := p, quantity := 1 } : CartItem)],
        item.id = p.id :=
      ⟨_, List.mem_append_right _ (List.mem_singleton_self _), rfl⟩
    have hmap : cart.map (fun item =>
        if item.id = p.id then { item with quantity := incrementQuantity item.quantity }
        else item) = cart := by
      conv_rhs => rw [← List.map_id cart]
      apply List.map_congr_left
      intro item hmem
      simp [hnone item hmem]
    have htwo : incrementQuantity 1 = 2 :=
      incrementQuantity_eq_add_one 1 (by norm_num) (by norm_num)
    rw [h1, addToCart_of_mem _ p hmem, List.map_append, hmap]
    simp [CartItem.id, htwo]

/-- Witness of the amended C2: on the scenario cart, adding `P1` makes its quantity 3 and
leaves the line of `P2`. -/
theorem addToCart_spec_witness :
    addToCart scenarioCart (sampleProduct "P1" "500.0")
      = [{ product := sampleProduct "P1" "500.0", quantity := 3 },
         { product := sampleProduct "P2" "300.0", quantity := 1 }] ∧
    (addToCart scenarioCart (sampleProduct "P1" "500.0"))[0]?
      = some { product := sampleProduct "P1" "500.0", quantity := 2 + 1 } := by
  refine ⟨by decide!, ?_⟩
  exact ((addToCart_spec scenarioCart (sampleProduct "P1" "500.0")).1
    ⟨_, List.mem_cons_self _ _, rfl⟩).2 0 (by decide) |>.2 rfl |>.2 (by decide) (by decide)

/-- Counterexample to C2 as stated: the cart reached by adding `P1` and setting its
quantity to `2^53` has a line for `P1`, and `addToCart` leaves that line's quantity at
`2^53` (on doubles `2^53 + 1` is `2^53`) instead of increasing it by 1. -/
theorem addToCart_keeps_quantity_at_two_pow_53 :
    runOps [.add (sampleProduct "P1" "500.0"), .update "P1" (2 ^ 53)]
      = [{ product := sampleProduct "P1" "500.0", quantity := 2 ^ 53 }] ∧
    addToCart [{ product := sampleProduct "P1" "500.0", quantity := 2 ^ 53 }]
        (sampleProduct "P1" "500.0")
      = [{ product := sampleProduct "P1" "500.0", quantity := 2 ^ 53 }] ∧
    addToCart [{ product := sampleProduct "P1" "500.0", quantity := 2 ^ 53 }]
        (sampleProduct "P1" "500.0")
      ≠ [{ product := sampleProduct "P1" "500.0", quantity := 2 ^ 53 + 1 }] ∧
    (JSNum.fin (2 ^ 53)).add (.fin 1) = .fin (2 ^ 53) := by
  decide!

/-- C3: `updateQuantity(id, 0)` produces the same cart as `removeFromCart(id)`: the lines
whose id is not `id`, in their original order, and the cart itself when no line has that
id.  On the scenario cart, `updateQuantity("P1", 0)` leaves the line of `P2` only. -/
theorem updateQuantity_zero_eq_removeFromCart (cart : Cart) (productId : String) :
    updateQuantity cart productId 0 = removeFromCart cart productId ∧
    (removeFromCart cart productId).Sublist cart ∧
    (∀ item, item ∈ removeFromCart cart productId ↔ item ∈ cart ∧ item.id ≠ productId) ∧
    (∀ item, item.id ≠ productId →
      (removeFromCart cart productId).count item = cart.count item) ∧
    ((∀ item ∈ cart, item.id ≠ productId) → removeFromCart cart productId = cart) ∧
    updateQuantity scenarioCart "P1" 0
      = [{ product := sampleProduct "P2" "300.0", quantity := 1 }] := by
  refine ⟨by simp [updateQuantity], List.filter_sublist _, ?_, ?_, ?_, by decide⟩
  · intro item
    simp [removeFromCart]
  · intro item hne
    simp only [removeFromCart]
    rw [List.count_filter]
    simpa using hne
  · intro h
    simp only [removeFromCart]
    rw [List.filter_eq_self]
    intro item hmem
    simpa using h item hmem

theorem wellFormed_nil : WellFormed ([] : Cart) := by
  simp [WellFormed]

theorem wellFormed_addToCart {cart : Cart} (h : WellFormed cart) (p : Product) :
    WellFormed (addToCart cart p) := by
  obtain ⟨hnd, hq⟩ := h
  cases hf : cart.find? (fun item => item.id == p.id) with
  | some x =>
    have hadd : addToCart cart p = cart.map (fun item =>
        if item.id = p.id then { item with quantity := incrementQuantity item.quantity }
        else item) := by
      simp only [addToCart, hf]
    rw [hadd]
    constructor
    · have hids : (cart.map (fun item =>
          if item.id = p.id then { item with quantity := incrementQuantity item.quantity }
          else item)).map CartItem.id = cart.map CartItem.id := by
        rw [List.map_map]
        apply List.map_congr_left
        intro item _
        simp only [Function.comp_apply, CartItem.id]
        split <;> rfl
      rw [hids]
      exact hnd
    · intro item hmem
      obtain ⟨old, hold, rfl⟩ := List.mem_map.mp hmem
      have := hq old hold
      by_cases hc : old.id = p.id
      · simp only [hc, if_true]
        exact one_le_incrementQuantity _ this
      · simpa [hc] using this
  | none =>
    have hnone := find?_id_eq_none.mp hf
    have hadd : addToCart cart p = cart ++ [{ product := p, quantity := 1 }] := by
      simp only [addToCart, hf]
    rw [hadd]
    constructor
    · rw [List.map_append, List.nodup_append]
      refine ⟨hnd, by simp, ?_⟩
      intro a ha hb
      obtain ⟨item, hmem, rfl⟩ := List.mem_map.mp ha
      simp only [List.map_cons, List.map_nil, List.mem_singleton] at hb
      exact hnone item hmem (by simpa [CartItem.id] using hb)
    · intro item hmem
      rcases List.mem_append.mp hmem with h1 | h1
      · exact hq item h1
      · simp only [List.mem_singleton] at h1
        subst h1
        exact le_refl _

theorem wellFormed_removeFromCart {cart : Cart} (h : WellFormed cart) (productId : String) :
    WellFormed (removeFromCart cart productId) := by
  obtain ⟨hnd, hq⟩ := h
  constructor
  · exact hnd.sublist ((List.filter_sublist cart).map CartItem.id)
  · intro item hmem
    exact hq item (List.mem_of_mem_filter hmem)

theorem wellFormed_updateQuantity {cart : Cart} (h : WellFormed cart) (productId : String)
    (newQuantity : Int) (hn : 0 ≤ newQuantity) :
    WellFormed (updateQuantity cart productId newQuantity) := by
  by_cases h0 : newQuantity = 0
  · simp only [updateQuantity, h0, if_true]
    exact wellFormed_removeFromCart h productId
  · obtain ⟨hnd, hq⟩ := h
    simp only [updateQuantity, h0, if_false]
    constructor
    · have hids : (cart.map (fun item =>
          if item.id = productId then { item with quantity := newQuantity } else item)).map
          CartItem.id = cart.map CartItem.id := by
        rw [List.map_map]
        apply List.map_congr_left
        intro item _
        simp only [Function.comp_apply, CartItem.id]
        split <;> rfl
      rw [hids]
      exact hnd
    · intro item hmem
      obtain ⟨old, hold, rfl⟩ := List.mem_map.mp hmem
      have := hq old hold
      by_cases hc : old.id = productId
      · simp only [hc, if_true]
        omega
      · simpa [hc] using this

theorem wellFormed_foldl_applyOp (ops : List CartOp) :
    ∀ cart : Cart, WellFormed cart → (∀ op ∈ ops, op.negativeUpdate = false) →
      WellFormed (ops.foldl applyOp cart) := by
  induction ops with
  | nil => intro cart h _; exact h
  | cons op rest ih =>
    intro cart h hops
    simp only [List.foldl_cons]
    apply ih
    · have hop := hops op (List.mem_cons_self _ _)
      cases op with
      | add product => exact wellFormed_addToCart h product
      | remove productId => exact wellFormed_removeFromCart h productId
      | update productId newQuantity =>
        refine wellFormed_updateQuantity h productId newQuantity ?_
        simpa [CartOp.negativeUpdate] using hop
    · intro op' hmem
      exact hops op' (List.mem_cons_of_mem _ hmem)

/-- C4: every cart reached from the empty cart by `addToCart`, `removeFromCart` and
`updateQuantity` with non-negative new quantities has pairwise distinct line ids and
every quantity at least 1. -/
theorem wellFormed_runOps (ops : List CartOp)
    (hops : ∀ op ∈ ops, op.negativeUpdate = false) :
    ((runOps ops).map CartItem.id).Nodup ∧ ∀ item ∈ runOps ops, 1 ≤ item.quantity :=
  wellFormed_foldl_applyOp ops [] wellFormed_nil hops

/-- Witness of C4: add `P1` twice, add `P2`, set `P1` to 5, decrement `P2` to 0. -/
theorem wellFormed_runOps_witness :
    (∀ op ∈ [CartOp.add (sampleProduct "P1" "500.0"), .add (sampleProduct "P1" "500.0"),
        .add (sampleProduct "P2" "300.0"), .update "P1" 5, .update "P2" 0],
      op.negativeUpdate = false) ∧
    runOps [CartOp.add (sampleProduct "P1" "500.0"), .add (sampleProduct "P1" "500.0"),
        .add (sampleProduct "P2" "300.0"), .update "P1" 5, .update "P2" 0]
      = [{ product := sampleProduct "P1" "500.0", quantity := 5 }] ∧
    (((runOps [CartOp.add (sampleProduct "P1" "500.0"), .add (sampleProduct "P1" "500.0"),
        .add (sampleProduct "P2" "300.0"), .update "P1" 5, .update "P2" 0]).map
        CartItem.id).Nodup ∧
      ∀ item ∈ runOps [CartOp.add (sampleProduct "P1" "500.0"),
        .add (sampleProduct "P1" "500.0"), .add (sampleProduct "P2" "300.0"),
        .update "P1" 5, .update "P2" 0], 1 ≤ item.quantity) :=
  ⟨by decide, by decide, wellFormed_runOps _ (by decide)⟩

/-! ## Properties of the totals -/

theorem add_isDouble (x y : JSNum) : (x.add y).IsDouble := by
  cases x with
  | nan => simp [JSNum.add, JSNum.IsDouble]
  | inf s =>
    cases y with
    | nan => simp [JSNum.add, JSNum.IsDouble]
    | inf t =>
      simp only [JSNum.add]
      split <;> simp [JSNum.IsDouble]
    | fin b => simp [JSNum.add, JSNum.IsDouble]
  | fin a =>
    cases y with
    | nan => simp [JSNum.add, JSNum.IsDouble]
    | inf t => simp [JSNum.add, JSNum.IsDouble]
    | fin b =>
      simp only [JSNum.add]
      cases h : toDouble (a + b) with
      | nan => simp [JSNum.IsDouble]
      | inf s => simp [JSNum.IsDouble]
      | fin r => exact toDouble_fixed _ _ h

theorem add_zero_of_isDouble (x : JSNum) (h : x.IsDouble) : x.add (.fin 0) = x := by
  cases x with
  | nan => rfl
  | inf s => rfl
  | fin a => simpa [JSNum.add, JSNum.IsDouble] using h

theorem zero_mul_ofInt (n : ℤ) : (JSNum.fin 0).mul (.ofInt n) = .fin 0 := by
  simp [JSNum.mul, JSNum.ofInt, toDouble]

theorem unitPrice_of_priceMissing (item : CartItem) (h : priceMissing item = true) :
    unitPrice item = .ok (.fin 0) := by
  unfold priceMissing at h
  unfold unitPrice
  cases hv : item.product.variants with
  | nil => rfl
  | cons variant rest =>
    rw [hv] at h
    simp only at h ⊢
    cases hp : variant.price with
    | none => rw [hp] at h; simp at h
    | some money =>
      rw [hp] at h
      simp only [decide_eq_true_eq] at h ⊢
      rcases h with h | h <;> simp [h]

theorem unitPrice_ok_of_price_present (item : CartItem)
    (h : priceObjectAbsent item = false) : ∃ price, unitPrice item = .ok price := by
  unfold priceObjectAbsent at h
  unfold unitPrice
  cases hv : item.product.variants with
  | nil => exact ⟨_, rfl⟩
  | cons variant rest =>
    rw [hv] at h
    simp only at h ⊢
    cases hp : variant.price with
    | none => rw [hp] at h; simp at h
    | some money =>
      simp only
      cases money.amount with
      | none => exact ⟨_, rfl⟩
      | some amount =>
        simp only
        split <;> exact ⟨_, rfl⟩

theorem addLine_of_priceMissing (total : JSNum) (item : CartItem) (hd : total.IsDouble)
    (h : priceMissing item = true) : addLine total item = .ok total := by
  simp only [addLine, unitPrice_of_priceMissing item h, bind, Except.bind, pure,
    Except.pure, zero_mul_ofInt, add_zero_of_isDouble total hd]

theorem foldlM_addLine_filter (cart : Cart) :
    ∀ total : JSNum, total.IsDouble →
      (∀ item ∈ cart, priceObjectAbsent item = false) →
      ∃ result, cart.foldlM addLine total = .ok result ∧
        (cart.filter (fun item => !priceMissing item)).foldlM addLine total = .ok result := by
  induction cart with
  | nil => intro total _ _; exact ⟨total, rfl, rfl⟩
  | cons item rest ih =>
    intro total hd hpresent
    have hrest : ∀ item ∈ rest, priceObjectAbsent item = false :=
      fun i hi => hpresent i (List.mem_cons_of_mem _ hi)
    by_cases hm : priceMissing item = true
    · obtain ⟨result, h1, h2⟩ := ih total hd hrest
      refine ⟨result, ?_, ?_⟩
      · rw [List.foldlM_cons, addLine_of_priceMissing total item hd hm]
        exact h1
      · simpa [List.filter_cons, hm] using h2
    · obtain ⟨price, hprice⟩ :=
        unitPrice_ok_of_price_present item (hpresent item (List.mem_cons_self _ _))
      have hstep : addLine total item = .ok (total.add (price.mul (.ofInt item.quantity))) := by
        simp [addLine, hprice, bind, Except.bind, pure, Except.pure]
      obtain ⟨result, h1, h2⟩ :=
        ih (total.add (price.mul (.ofInt item.quantity))) (add_isDouble _ _) hrest
      refine ⟨result, ?_, ?_⟩
      · rw [List.foldlM_cons, hstep]
        exact h1
      · have hf : (item :: rest).filter (fun item => !priceMissing item)
            = item :: rest.filter (fun item => !priceMissing item) := by
          simp [List.filter_cons, hm]
        rw [hf, List.foldlM_cons, hstep]
        exact h2

/-- C9 (as amended): a line without a variant, or whose first variant's price has no
amount (absent or empty), counts as 0; and when every line that has a variant has a price
object, `getTotalAmount` does not throw and returns what it returns on the cart without
the lines whose price is missing. -/
theorem getTotalAmount_ignores_missing_prices (cart : Cart)
    (hpresent : ∀ item ∈ cart, priceObjectAbsent item = false) :
    (∀ item ∈ cart, priceMissing item = true → unitPrice item = .ok (.fin 0)) ∧
    ∃ total, getTotalAmount cart = .ok total ∧
      getTotalAmount (cart.filter (fun item => !priceMissing item)) = .ok total := by
  refine ⟨fun item _ h => unitPrice_of_priceMissing item h, ?_⟩
  exact foldlM_addLine_filter cart (.fin 0) (by simp [JSNum.IsDouble, toDouble]) hpresent

/-- Witness of C9: a line priced 500 twice, a line without variant and a line whose
price has no amount total 1000. -/
theorem getTotalAmount_ignores_missing_prices_witness :
    (∀ item ∈ [({ product := sampleProduct "P1" "500.0", quantity := 2 } : CartItem),
        { product := productWithVariants "P2" [], quantity := 1 },
        { product := productWithAmount "P3" none, quantity := 3 }],
      priceObjectAbsent item = false) ∧
    getTotalAmount [({ product := sampleProduct "P1" "500.0", quantity := 2 } : CartItem),
        { product := productWithVariants "P2" [], quantity := 1 },
        { product := productWithAmount "P3" none, quantity := 3 }] = .ok (.fin 1000) ∧
    ((∀ item ∈ [({ product := sampleProduct "P1" "500.0", quantity := 2 } : CartItem),
        { product := productWithVariants "P2" [], quantity := 1 },
        { product := productWithAmount "P3" none, quantity := 3 }],
      priceMissing item = true → unitPrice item = .ok (.fin 0)) ∧
    ∃ total, getTotalAmount [({ product := sampleProduct "P1" "500.0", quantity := 2 } : CartItem),
        { product := productWithVariants "P2" [], quantity := 1 },
        { product := productWithAmount "P3" none, quantity := 3 }] = .ok total ∧
      getTotalAmount (List.filter (fun item => !priceMissing item)
        [({ product := sampleProduct "P1" "500.0", quantity := 2 } : CartItem),
        { product := productWithVariants "P2" [], quantity := 1 },
        { product := productWithAmount "P3" none, quantity := 3 }]) = .ok total) :=
  ⟨by decide, by decide!, getTotalAmount_ignores_missing_prices _ (by decide)⟩

/-- Counterexample to C9 as stated: an amount that is not a number makes the whole total
`NaN` (the remaining line alone totals 1000), and a first variant without a price object
makes `getTotalAmount` throw a `TypeError`. -/
theorem getTotalAmount_unparseable_or_absent_price :
    getTotalAmount [({ product := sampleProduct "P1" "500.0", quantity := 2 } : CartItem),
        { product := sampleProduct "P2" "N/A", quantity := 1 }] = .ok .nan ∧
    getTotalAmount [({ product := sampleProduct "P1" "500.0", quantity := 2 } : CartItem)]
      = .ok (.fin 1000) ∧
    getTotalAmount [({ product := sampleProduct "P1" "500.0", quantity := 2 } : CartItem),
        { product := productWithVariants "P2"
            [{ id := "V", price := none, compareAtPrice := none, availableForSale := true }],
          quantity := 1 }] = .error .typeError := by
  decide!

theorem quantities_sum_nonneg (cart : Cart) (hq : ∀ item ∈ cart, 0 ≤ item.quantity) :
    0 ≤ (cart.map CartItem.quantity).sum := by
  apply List.sum_nonneg
  intro x hx
  obtain ⟨item, hmem, rfl⟩ := List.mem_map.mp hx
  exact hq item hmem

theorem getTotalItems_foldl (cart : Cart) :
    ∀ total : ℤ, 0 ≤ total → (∀ item ∈ cart, 0 ≤ item.quantity) →
      total + (cart.map CartItem.quantity).sum < 2 ^ 53 →
      cart.foldl (fun (sum : JSNum) (item : CartItem) => sum.add (.ofInt item.quantity))
          (JSNum.fin (total : ℚ))
        = JSNum.fin ((total + (cart.map CartItem.quantity).sum : ℤ) : ℚ) := by
  induction cart with
  | nil => intro total _ _ _; simp
  | cons item rest ih =>
    intro total htotal hq hbound
    have hitem := hq item (List.mem_cons_self _ _)
    have hrestq : ∀ item ∈ rest, 0 ≤ item.quantity :=
      fun i hi => hq i (List.mem_cons_of_mem _ hi)
    have hrest := quantities_sum_nonneg rest hrestq
    simp only [List.map_cons, List.sum_cons] at hbound ⊢
    have hstep : (JSNum.fin (total : ℚ)).add (.ofInt item.quantity)
        = .fin ((total + item.quantity : ℤ) : ℚ) := by
      have := toDouble_intCast (total + item.quantity) (abs_le.mpr ⟨by omega, by omega⟩)
      simp only [JSNum.ofInt, JSNum.add]
      rw [← this]
      congr 1
      push_cast
      ring
    rw [List.foldl_cons, hstep, ih (total + item.quantity) (by omega) hrestq (by omega)]
    congr 2
    ring

theorem getTotalItems_eq_sum (cart : Cart) (hq : ∀ item ∈ cart, 0 ≤ item.quantity)
    (hbound : (cart.map CartItem.quantity).sum < 2 ^ 53) :
    getTotalItems cart = .fin (((cart.map CartItem.quantity).sum : ℤ) : ℚ) := by
  have := getTotalItems_foldl cart 0 le_rfl hq (by simpa using hbound)
  simpa [getTotalItems] using this

theorem toDouble_of_eq_natCast (x : ℚ) (n : ℕ) (hx : x = n) (h : x < 2 ^ 53) :
    toDouble x = .fin x := by
  subst hx
  exact toDouble_natCast n (by exact_mod_cast h)

theorem lineValues_sum_nonneg (price : CartItem → ℕ) (cart : Cart)
    (hq : ∀ item ∈ cart, 0 ≤ item.quantity) :
    0 ≤ (cart.map (fun item => (price item : ℚ) * item.quantity)).sum := by
  apply List.sum_nonneg
  intro x hx
  obtain ⟨item, hmem, rfl⟩ := List.mem_map.mp hx
  have : (0 : ℚ) ≤ item.quantity := by exact_mod_cast hq item hmem
  positivity

theorem foldlM_addLine_exact (price : CartItem → ℕ) (cart : Cart) :
    ∀ a : ℕ, (∀ item ∈ cart, unitPrice item = .ok (.fin (price item))) →
      (∀ item ∈ cart, 0 ≤ item.quantity) →
      (a : ℚ) + (cart.map (fun item => (price item : ℚ) * item.quantity)).sum < 2 ^ 53 →
      cart.foldlM addLine (.fin a)
        = .ok (.fin ((a : ℚ) + (cart.map (fun item => (price item : ℚ) * item.quantity)).sum)) := by
  induction cart with
  | nil => intro a _ _ _; simp [pure, Except.pure]
  | cons item rest ih =>
    intro a hprice hq hbound
    have hrestq : ∀ item ∈ rest, 0 ≤ item.quantity :=
      fun i hi => hq i (List.mem_cons_of_mem _ hi)
    have hrest := lineValues_sum_nonneg price rest hrestq
    obtain ⟨m, hm⟩ := Int.eq_ofNat_of_zero_le (hq item (List.mem_cons_self _ _))
    simp only [List.map_cons, List.sum_cons] at hbound ⊢
    have hqm : ((item.quantity : ℤ) : ℚ) = (m : ℚ) := by rw [hm]; simp
    rw [hqm] at hbound ⊢
    have hmul : toDouble ((price item : ℚ) * (m : ℚ)) = .fin ((price item * m : ℕ) : ℚ) := by
      rw [toDouble_of_eq_natCast _ (price item * m) (by push_cast; ring)]
      · push_cast; rfl
      · have : (0 : ℚ) ≤ a := Nat.cast_nonneg a
        linarith
    have hadd : toDouble ((a : ℚ) + ((price item * m : ℕ) : ℚ))
        = .fin ((a + price item * m : ℕ) : ℚ) := by
      rw [toDouble_of_eq_natCast _ (a + price item * m) (by push_cast; ring)]
      · push_cast; rfl
      · push_cast
        linarith
    have hstep : addLine (.fin a) item = .ok (.fin ((a + price item * m : ℕ) : ℚ)) := by
      simp only [addLine, hprice item (List.mem_cons_self _ _), bind, Except.bind, pure,
        Except.pure, JSNum.ofInt, JSNum.mul, JSNum.add, hqm, hmul, hadd]
    rw [List.foldlM_cons, hstep]
    have := ih (a + price item * m) (fun i hi => hprice i (List.mem_cons_of_mem _ hi)) hrestq
      (by push_cast; linarith)
    refine this.trans ?_
    congr 2
    push_cast
    ring

/-- C1 (as amended): for a cart without negative quantities, `getTotalItems` is exactly
the sum of the quantities when that sum is below `2^53`, and `getTotalAmount` is exactly
the sum of price × quantity when the unit prices are whole numbers and that sum is below
`2^53`; every cart with the same lines in another order then has the same total. -/
theorem totals_of_whole_prices (cart : Cart) (hq : ∀ item ∈ cart, 0 ≤ item.quantity) :
    ((cart.map CartItem.quantity).sum < 2 ^ 53 →
      getTotalItems cart = .fin (((cart.map CartItem.quantity).sum : ℤ) : ℚ) ∧
      ∀ cart' : Cart, cart'.Perm cart → getTotalItems cart' = getTotalItems cart) ∧
    ∀ price : CartItem → ℕ,
      (∀ item ∈ cart, unitPrice item = .ok (.fin (price item))) →
      (cart.map (fun item => (price item : ℚ) * item.quantity)).sum < 2 ^ 53 →
      getTotalAmount cart
        = .ok (.fin (cart.map (fun item => (price item : ℚ) * item.quantity)).sum) ∧
      ∀ cart' : Cart, cart'.Perm cart → getTotalAmount cart' = getTotalAmount cart := by
  refine ⟨?_, ?_⟩
  · intro hbound
    have key : ∀ c : Cart, c.Perm cart →
        getTotalItems c = .fin (((cart.map CartItem.quantity).sum : ℤ) : ℚ) := by
      intro c hperm
      have hsum : (c.map CartItem.quantity).sum = (cart.map CartItem.quantity).sum :=
        (hperm.map _).sum_eq
      rw [getTotalItems_eq_sum c (fun i hi => hq i (hperm.mem_iff.mp hi))
        (by rw [hsum]; exact hbound), hsum]
    refine ⟨key cart (List.Perm.refl _), ?_⟩
    intro cart' hperm
    rw [key cart' hperm, key cart (List.Perm.refl _)]
  · intro price hprice hbound
    have key : ∀ c : Cart, c.Perm cart → getTotalAmount c
        = .ok (.fin (cart.map (fun item => (price item : ℚ) * item.quantity)).sum) := by
      intro c hperm
      have hsum : (c.map (fun item => (price item : ℚ) * item.quantity)).sum
          = (cart.map (fun item => (price item : ℚ) * item.quantity)).sum :=
        (hperm.map _).sum_eq
      have := foldlM_addLine_exact price c 0
        (fun i hi => hprice i (hperm.mem_iff.mp hi))
        (fun i hi => hq i (hperm.mem_iff.mp hi))
        (by rw [hsum]; simpa using hbound)
      simpa [getTotalAmount, hsum] using this
    refine ⟨key cart (List.Perm.refl _), ?_⟩
    intro cart' hperm
    rw [key cart' hperm, key cart (List.Perm.refl _)]

/-- Witness of C1: the scenario cart totals 1300 for 3 items, in any order of its lines. -/
theorem totals_of_whole_prices_witness :
    (∀ item ∈ scenarioCart, 0 ≤ item.quantity) ∧
    getTotalItems scenarioCart = .fin 3 ∧ getTotalAmount scenarioCart = .ok (.fin 1300) ∧
    ∀ cart' : Cart, cart'.Perm scenarioCart →
      getTotalItems cart' = .fin 3 ∧ getTotalAmount cart' = .ok (.fin 1300) := by
  have h := totals_of_whole_prices scenarioCart (by decide)
  have hitems := h.1 (by decide)
  have hamount := h.2 scenarioPrice (by decide!) (by decide!)
  have hcount : getTotalItems scenarioCart = .fin 3 := by decide!
  have hvalue : getTotalAmount scenarioCart = .ok (.fin 1300) := by decide!
  refine ⟨by decide, hcount, hvalue, ?_⟩
  intro cart' hperm
  exact ⟨(hitems.2 cart' hperm).trans hcount, (hamount.2 cart' hperm).trans hvalue⟩

/-- Counterexample to C1 as stated: the carts reached by adding the products priced 0.1,
0.2 and 0.3 in the two opposite orders hold the same lines, and their total amounts are
the doubles 0.6000000000000001 and 0.6; and the carts with the quantities `2^53`, 1, 1 in
the two opposite orders hold the same lines, and their item totals are `2^53` and
`2^53 + 2`. -/
theorem totals_depend_on_line_order :
    tenthsCartReversed.Perm tenthsCart ∧
    tenthsCart = runOps [.add (sampleProduct "A" "0.1"), .add (sampleProduct "B" "0.2"),
      .add (sampleProduct "C" "0.3")] ∧
    tenthsCartReversed = runOps [.add (sampleProduct "C" "0.3"),
      .add (sampleProduct "B" "0.2"), .add (sampleProduct "A" "0.1")] ∧
    getTotalAmount tenthsCart = .ok (.fin (1351079888211149 / 2251799813685248)) ∧
    getTotalAmount tenthsCartReversed = .ok (.fin (5404319552844595 / 9007199254740992)) ∧
    getTotalAmount tenthsCart ≠ getTotalAmount tenthsCartReversed ∧
    largeCartReversed.Perm largeCart ∧
    largeCart = runOps [.add (sampleProduct "A" "0.1"), .add (sampleProduct "B" "0.2"),
      .add (sampleProduct "C" "0.3"), .update "A" (2 ^ 53)] ∧
    largeCartReversed = runOps [.add (sampleProduct "C" "0.3"),
      .add (sampleProduct "B" "0.2"), .add (sampleProduct "A" "0.1"), .update "A" (2 ^ 53)] ∧
    getTotalItems largeCart = .fin (2 ^ 53) ∧
    getTotalItems largeCartReversed = .fin (2 ^ 53 + 2) ∧
    getTotalItems largeCart ≠ getTotalItems largeCartReversed := by
  refine ⟨List.reverse_perm tenthsCart, by decide, by decide, by decide!, by decide!,
    by decide!, List.reverse_perm largeCart, by decide!, by decide!, by decide!, by decide!,
    by decide!⟩

/-! ## Properties of the checkout -/

theorem cartSummary_of_foldlM_addLine (cart : Cart) :
    ∀ (start total : JSNum), cart.foldlM addLine start = .ok total →
      ∃ summaries, cartSummary cart = .ok summaries ∧
        List.Forall₂ Summarises cart summaries ∧
        summaries.foldl (fun total line => total.add (line.price.mul (.ofInt line.quantity)))
          start = total := by
  induction cart with
  | nil =>
    intro start total h
    simp only [List.foldlM_nil, pure, Except.pure, Except.ok.injEq] at h
    exact ⟨[], rfl, List.Forall₂.nil, by simpa using h⟩
  | cons item rest ih =>
    intro start total h
    rw [List.foldlM_cons] at h
    cases hp : unitPrice item with
    | error e => simp [addLine, hp, bind, Except.bind] at h
    | ok price =>
      have hstep : addLine start item
          = .ok (start.add (price.mul (.ofInt item.quantity))) := by
        simp [addLine, hp, bind, Except.bind, pure, Except.pure]
      rw [hstep] at h
      obtain ⟨summaries, hs, hrel, hsum⟩ := ih _ total h
      refine ⟨{ id := item.id, title := item.product.title, quantity := item.quantity,
                price := price, handle := item.product.handle } :: summaries, ?_, ?_, ?_⟩
      · simp [cartSummary, hp, hs, bind, Except.bind, pure, Except.pure]
      · exact List.Forall₂.cons ⟨rfl, rfl, rfl, rfl, hp⟩ hrel
      · simpa using hsum

theorem cartSummary_of_getTotalAmount (cart : Cart) (totalAmount : JSNum)
    (h : getTotalAmount cart = .ok totalAmount) :
    ∃ summaries, cartSummary cart = .ok summaries ∧
      List.Forall₂ Summarises cart summaries ∧ summaryTotal summaries = totalAmount :=
  cartSummary_of_foldlM_addLine cart (.fin 0) totalAmount h

theorem processPayment_of_nonzero (cart : Cart) (env : CheckoutEnv) (totalAmount : JSNum)
    (htotal : getTotalAmount cart = .ok totalAmount) (hnz : totalAmount ≠ .fin 0) :
    processPayment cart env = .ok
      (match processPaymentTry cart totalAmount env with
        | (events, .ok _) => events
        | (events, .error _) => events ++ [.alert paymentFailedMessage]) := by
  simp only [processPayment, htotal, bind, Except.bind, hnz, if_false, paymentFailedMessage]
  split <;> simp_all [pure, Except.pure]

theorem mathRound_nearest (x : JSNum) (q : ℚ) (h : x = .fin q) :
    ∃ n : ℤ, mathRound x = .fin n ∧ (n : ℚ) - 1 / 2 ≤ q ∧ q < n + 1 / 2 := by
  subst h
  refine ⟨⌊q + 1 / 2⌋, rfl, ?_, ?_⟩
  · have := Int.floor_le (q + 1 / 2)
    linarith
  · have := Int.lt_floor_add_one (q + 1 / 2)
    linarith

/-- C5: with a non-zero total, `processPayment` first sends the order-creation request,
and sends no other; its amount is `Math.round(totalAmount * 100)` (an integer within one
half of the product), its currency is `"INR"`, and its cart list has one summary per cart
line, in cart order, with the line's id, title, quantity, handle and unit price, so that
price × quantity summed over the summaries is the total amount. -/
theorem processPayment_order_request (cart : Cart) (env : CheckoutEnv) (totalAmount : JSNum)
    (htotal : getTotalAmount cart = .ok totalAmount) (hnz : totalAmount ≠ .fin 0) :
    ∃ request rest, processPayment cart env = .ok (.createOrder request :: rest) ∧
      (∀ e ∈ rest, e.isCreateOrder = false) ∧
      request.amount = mathRound (totalAmount.mul (.fin 100)) ∧
      (∀ q : ℚ, totalAmount.mul (.fin 100) = .fin q →
        ∃ n : ℤ, request.amount = .fin n ∧ (n : ℚ) - 1 / 2 ≤ q ∧ q < n + 1 / 2) ∧
      request.currency = "INR" ∧
      List.Forall₂ Summarises cart request.cart ∧
      summaryTotal request.cart = totalAmount := by
  obtain ⟨summaries, hs, hrel, hsum⟩ := cartSummary_of_getTotalAmount cart totalAmount htotal
  have hshape : ∃ rest, processPayment cart env = .ok
      (.createOrder { amount := mathRound (totalAmount.mul (.fin 100)), currency := "INR",
                      cart := summaries } :: rest) ∧ ∀ e ∈ rest, e.isCreateOrder = false := by
    rw [processPayment_of_nonzero cart env totalAmount htotal hnz]
    simp only [processPaymentTry, hs]
    cases env.orderCreation with
    | failure => exact ⟨_, rfl, by simp [Event.isCreateOrder]⟩
    | response status body =>
      by_cases hstatus : statusOk status = false
      · simp only [hstatus, if_true]
        exact ⟨_, rfl, by simp [Event.isCreateOrder]⟩
      · simp only [hstatus, if_false]
        cases body with
        | none => exact ⟨_, rfl, by simp [Event.isCreateOrder]⟩
        | some orderData =>
          simp only
          cases razorpayOptions cart orderData with
          | error e => exact ⟨_, rfl, by simp [Event.isCreateOrder]⟩
          | ok options =>
            simp only
            cases env.razorpayLoaded with
            | true => exact ⟨_, rfl, by simp [Event.isCreateOrder]⟩
            | false => exact ⟨_, rfl, by simp [Event.isCreateOrder]⟩
  obtain ⟨rest, hrun, hrest⟩ := hshape
  exact ⟨_, rest, hrun, hrest, rfl, fun q hq => mathRound_nearest _ q hq, rfl, hrel, hsum⟩

/-- Witness of C5: the scenario cart, total 1300, requests 130000 paise. -/
theorem processPayment_order_request_witness :
    getTotalAmount scenarioCart = .ok (.fin 1300) ∧ JSNum.fin 1300 ≠ .fin 0 ∧
    ∃ request rest,
      processPayment scenarioCart { orderCreation := .failure, razorpayLoaded := true }
        = .ok (.createOrder request :: rest) ∧
      (∀ e ∈ rest, e.isCreateOrder = false) ∧
      request.amount = mathRound ((JSNum.fin 1300).mul (.fin 100)) ∧
      (∀ q : ℚ, (JSNum.fin 1300).mul (.fin 100) = .fin q →
        ∃ n : ℤ, request.amount = .fin n ∧ (n : ℚ) - 1 / 2 ≤ q ∧ q < n + 1 / 2) ∧
      request.currency = "INR" ∧
      List.Forall₂ Summarises scenarioCart request.cart ∧
      summaryTotal request.cart = .fin 1300 :=
  ⟨by decide!, by decide,
    processPayment_order_request scenarioCart _ (.fin 1300) (by decide!) (by decide)⟩

/-- C6: when the total amount is 0, as it is for the empty cart, `processPayment` only
shows the message "Please add items to cart": it sends no order-creation request, neither
constructs nor opens the gateway, sends no verification request, and leaves the state
(the cart in particular) as it is. -/
theorem processPayment_zero_total (cart : Cart) (env : CheckoutEnv)
    (hzero : getTotalAmount cart = .ok (.fin 0)) :
    getTotalAmount [] = .ok (.fin 0) ∧
    processPayment cart env = .ok [.alert "Please add items to cart"] ∧
    ∃ events, processPayment cart env = .ok events ∧
      (∃ message, events = [.alert message]) ∧
      (∀ e ∈ events, e.isCreateOrder = false ∧ e.isGateway = false ∧ e.isVerify = false) ∧
      ∀ state : AppState, runEvents state events = state := by
  have hrun : processPayment cart env = .ok [.alert "Please add items to cart"] := by
    simp [processPayment, hzero, bind, Except.bind, pure, Except.pure]
  refine ⟨rfl, hrun, _, hrun, ⟨_, rfl⟩, ?_, ?_⟩
  · intro e he
    simp only [List.mem_singleton] at he
    subst he
    exact ⟨rfl, rfl, rfl⟩
  · intro state
    rfl

/-- Witness of C6: the empty cart. -/
theorem processPayment_zero_total_witness :
    getTotalAmount [] = .ok (.fin 0) ∧
    processPayment [] { orderCreation := .response 200 (some (.obj [])), razorpayLoaded := true }
      = .ok [.alert "Please add items to cart"] :=
  ⟨rfl, (processPayment_zero_total [] _ rfl).2.1⟩

/-- C7: with a non-zero total, when the order-creation call fails (the fetch rejects, or
the HTTP status is outside 200..299 whatever the body), `processPayment` performs the
request and then only shows the failure message: it neither constructs nor opens the
gateway, sends no verification request, and leaves the state (the cart in particular)
as it is. -/
theorem processPayment_order_creation_failed (cart : Cart) (env : CheckoutEnv)
    (totalAmount : JSNum) (htotal : getTotalAmount cart = .ok totalAmount)
    (hnz : totalAmount ≠ .fin 0)
    (hfail : env.orderCreation = .failure ∨
      ∃ status body, env.orderCreation = .response status body ∧ statusOk status = false) :
    ∃ request events, processPayment cart env = .ok events ∧
      events = [.createOrder request, .alert "Failed to process payment. Please try again."] ∧
      (∀ e ∈ events, e.isGateway = false ∧ e.isVerify = false) ∧
      (∃ e ∈ events, e.isAlert "Failed to process payment. Please try again." = true) ∧
      ∀ state : AppState, runEvents state events = state := by
  obtain ⟨summaries, hs, -, -⟩ := cartSummary_of_getTotalAmount cart totalAmount htotal
  have hrun : processPayment cart env = .ok
      [.createOrder { amount := mathRound (totalAmount.mul (.fin 100)), currency := "INR",
                      cart := summaries },
       .alert "Failed to process payment. Please try again."] := by
    rw [processPayment_of_nonzero cart env totalAmount htotal hnz]
    rcases hfail with hf | ⟨status, body, hf, hstatus⟩
    · simp [processPaymentTry, hs, hf, paymentFailedMessage]
    · simp [processPaymentTry, hs, hf, hstatus, paymentFailedMessage]
  refine ⟨_, _, hrun, rfl, ?_, ?_, ?_⟩
  · intro e he
    simp only [List.mem_cons, List.mem_singleton, List.not_mem_nil, or_false] at he
    rcases he with rfl | rfl <;> exact ⟨rfl, rfl⟩
  · exact ⟨_, List.mem_cons_of_mem _ (List.mem_singleton_self _), by simp [Event.isAlert]⟩
  · intro state
    rfl

/-- Witness of C7: the scenario cart and an HTTP 500 response. -/
theorem processPayment_order_creation_failed_witness :
    getTotalAmount scenarioCart = .ok (.fin 1300) ∧ statusOk 500 = false ∧
    ∃ request events,
      processPayment scenarioCart
        { orderCreation := .response 500 (some (.obj [("error", .str "boom")])),
          razorpayLoaded := true } = .ok events ∧
      events = [.createOrder request, .alert "Failed to process payment. Please try again."] ∧
      (∀ e ∈ events, e.isGateway = false ∧ e.isVerify = false) ∧
      (∃ e ∈ events, e.isAlert "Failed to process payment. Please try again." = true) ∧
      ∀ state : AppState, runEvents state events = state :=
  ⟨by decide!, by decide,
    processPayment_order_creation_failed scenarioCart _ (.fin 1300) (by decide!) (by decide)
      (Or.inr ⟨500, _, rfl, by decide⟩)⟩

theorem handler_of_summary (cart : Cart) (response : PaymentResponse)
    (verification : FetchOutcome) (summaries : List LineSummary)
    (hs : cartSummary cart = .ok summaries) (state : AppState) :
    (runEvents state (handler cart response verification)).cart =
      match verification with
      | .response _ (some result) =>
        match result.getProp "success" with
        | .ok value => if truthy value then [] else state.cart
        | .error _ => state.cart
      | _ => state.cart := by
  unfold handler handlerTry
  simp only [hs]
  cases verification with
  | failure => rfl
  | response status body =>
    cases body with
    | none => rfl
    | some result =>
      simp only
      cases result.getProp "success" with
      | error e => rfl
      | ok value =>
        simp only
        cases truthy value <;> rfl

theorem handler_of_summary_error (cart : Cart) (response : PaymentResponse)
    (verification : FetchOutcome) (e : JSError)
    (hs : cartSummary cart = .error e) (state : AppState) :
    (runEvents state (handler cart response verification)).cart = state.cart := by
  unfold handler handlerTry
  simp only [hs]
  rfl

/-- C8: the effect of the completion handler on the cart is decided by the verification
response.  For a cart that `processPayment` accepted, a response whose `success` is
`true` empties the cart; a response whose `success` is `false`, a rejected verification
call and a body that does not parse leave the cart as it is; and the cart changes only
when the response carries a truthy `success`. -/
theorem handler_cart_effect (cart : Cart) (response : PaymentResponse) (state : AppState) :
    (∀ totalAmount status members, getTotalAmount cart = .ok totalAmount →
      members.lookup "success" = some (.bool true) →
      (runEvents state (handler cart response (.response status (some (.obj members))))).cart
        = []) ∧
    (∀ status members, members.lookup "success" = some (.bool false) →
      (runEvents state (handler cart response (.response status (some (.obj members))))).cart
        = state.cart) ∧
    (runEvents state (handler cart response .failure)).cart = state.cart ∧
    (∀ status, (runEvents state (handler cart response (.response status none))).cart
        = state.cart) ∧
    (∀ verification,
      (runEvents state (handler cart response verification)).cart ≠ state.cart →
      (runEvents state (handler cart response verification)).cart = [] ∧
      ∃ status result value, verification = .response status (some result) ∧
        result.getProp "success" = .ok value ∧ truthy value = true) := by
  cases hs : cartSummary cart with
  | error e =>
    refine ⟨?_, ?_, ?_, ?_, ?_⟩
    · intro totalAmount status members htotal _
      obtain ⟨summaries, hs', -, -⟩ := cartSummary_of_getTotalAmount cart totalAmount htotal
      rw [hs] at hs'
      cases hs'
    · intro status members _
      exact handler_of_summary_error cart response _ e hs state
    · exact handler_of_summary_error cart response _ e hs state
    · intro status
      exact handler_of_summary_error cart response _ e hs state
    · intro verification hne
      exact absurd (handler_of_summary_error cart response verification e hs state) hne
  | ok summaries =>
    refine ⟨?_, ?_, ?_, ?_, ?_⟩
    · intro totalAmount status members _ hsuccess
      rw [handler_of_summary cart response _ summaries hs state]
      simp [JSON.getProp, hsuccess, truthy]
    · intro status members hsuccess
      rw [handler_of_summary cart response _ summaries hs state]
      simp [JSON.getProp, hsuccess, truthy]
    · rw [handler_of_summary cart response _ summaries hs state]
    · intro status
      rw [handler_of_summary cart response _ summaries hs state]
    · intro verification hne
      rw [handler_of_summary cart response _ summaries hs state] at hne ⊢
      cases verification with
      | failure => exact absurd rfl hne
      | response status body =>
        cases body with
        | none => exact absurd rfl hne
        | some result =>
          simp only at hne ⊢
          cases hp : result.getProp "success" with
          | error e => rw [hp] at hne; exact absurd rfl hne
          | ok value =>
            rw [hp] at hne
            simp only at hne ⊢
            cases ht : truthy value with
            | false => rw [ht] at hne; exact absurd rfl hne
            | true => exact ⟨by simp, status, result, value, rfl, hp, ht⟩

/-- Witness of C8: the scenario cart is emptied by `{success: true}` and kept by
`{success: false}`. -/
theorem handler_cart_effect_witness :
    (runEvents { cart := scenarioCart, showCart := true }
      (handler scenarioCart samplePayment
        (.response 200 (some (.obj [("success", .bool true)]))))).cart = [] ∧
    (runEvents { cart := scenarioCart, showCart := true }
      (handler scenarioCart samplePayment
        (.response 200 (some (.obj [("success", .bool false)]))))).cart = scenarioCart :=
  ⟨(handler_cart_effect scenarioCart samplePayment _).1 (.fin 1300) 200 _ (by decide!) rfl,
   (handler_cart_effect scenarioCart samplePayment _).2.1 200 _ rfl⟩

theorem razorpayOptions_of_ne_null (cart : Cart) (orderData : JSON) (h : orderData ≠ .null) :
    ∃ amount currency orderId,
      orderData.getProp "amount" = .ok amount ∧ orderData.getProp "currency" = .ok currency ∧
      orderData.getProp "id" = .ok orderId ∧
      razorpayOptions cart orderData = .ok
        { key := RAZORPAY_KEY_ID, amount := amount, currency := currency,
          name := "Undhyu.com", description := "Authentic Indian Fashion",
          order_id := orderId, handlerCart := cart, themeColor := "#ea580c" } := by
  cases orderData with
  | null => exact absurd rfl h
  | bool b => exact ⟨_, _, _, rfl, rfl, rfl, rfl⟩
  | num n => exact ⟨_, _, _, rfl, rfl, rfl, rfl⟩
  | str s => exact ⟨_, _, _, rfl, rfl, rfl, rfl⟩
  | arr items => exact ⟨_, _, _, rfl, rfl, rfl, rfl⟩
  | obj members => exact ⟨_, _, _, rfl, rfl, rfl, rfl⟩

/-- C10 (as amended): with a non-zero total and a success HTTP status, a body that does
not parse as JSON, or parses to `null`, makes `processPayment` show the failure message
without constructing or opening the gateway; any other parsed body makes it construct and
open the gateway (when the gateway script is loaded), configured with the body's `id`,
`amount` and `currency` as they are read from it (`undefined` where the body lacks
them); and the gateway is constructed or opened for no other body. -/
theorem processPayment_order_response (cart : Cart) (env : CheckoutEnv)
    (totalAmount : JSNum) (status : Nat) (body : Option JSON)
    (htotal : getTotalAmount cart = .ok totalAmount) (hnz : totalAmount ≠ .fin 0)
    (henv : env.orderCreation = .response status body) (hstatus : statusOk status = true) :
    ((body = none ∨ body = some .null) →
      ∃ request, processPayment cart env
        = .ok [.createOrder request, .alert "Failed to process payment. Please try again."]) ∧
    (∀ orderData, body = some orderData → orderData ≠ .null → env.razorpayLoaded = true →
      ∃ request options, processPayment cart env
          = .ok [.createOrder request, .newRazorpay options, .rzpOpen] ∧
        orderData.getProp "id" = .ok options.order_id ∧
        orderData.getProp "amount" = .ok options.amount ∧
        orderData.getProp "currency" = .ok options.currency ∧
        options.key = RAZORPAY_KEY_ID ∧ options.handlerCart = cart) ∧
    (∀ events, processPayment cart env = .ok events →
      (∃ e ∈ events, e.isGateway = true) →
      ∃ orderData, body = some orderData ∧ orderData ≠ .null) := by
  obtain ⟨summaries, hs, -, -⟩ := cartSummary_of_getTotalAmount cart totalAmount htotal
  have hrun := processPayment_of_nonzero cart env totalAmount htotal hnz
  have hfailed : (body = none ∨ body = some .null) →
      processPayment cart env = .ok
        [.createOrder { amount := mathRound (totalAmount.mul (.fin 100)), currency := "INR",
                        cart := summaries },
         .alert "Failed to process payment. Please try again."] := by
    intro hbody
    rw [hrun]
    rcases hbody with rfl | rfl
    · simp [processPaymentTry, hs, henv, hstatus, paymentFailedMessage]
    · simp [processPaymentTry, hs, henv, hstatus, paymentFailedMessage, razorpayOptions,
        JSON.getProp, bind, Except.bind]
  refine ⟨fun hbody => ⟨_, hfailed hbody⟩, ?_, ?_⟩
  · intro orderData hbody hne hloaded
    obtain ⟨amount, currency, orderId, ha, hc, hi, hopts⟩ :=
      razorpayOptions_of_ne_null cart orderData hne
    refine ⟨{ amount := mathRound (totalAmount.mul (.fin 100)), currency := "INR",
              cart := summaries },
      { key := RAZORPAY_KEY_ID, amount := amount, currency := currency,
        name := "Undhyu.com", description := "Authentic Indian Fashion",
        order_id := orderId, handlerCart := cart, themeColor := "#ea580c" },
      ?_, hi, ha, hc, rfl, rfl⟩
    rw [hrun]
    simp [processPaymentTry, hs, henv, hstatus, hbody, hopts, hloaded]
  · intro events hevents hgateway
    cases body with
    | none =>
      rw [hfailed (Or.inl rfl)] at hevents
      cases hevents
      simp [Event.isGateway] at hgateway
    | some orderData =>
      refine ⟨orderData, rfl, ?_⟩
      rintro rfl
      rw [hfailed (Or.inr rfl)] at hevents
      cases hevents
      simp [Event.isGateway] at hgateway

/-- Witness of C10: the scenario cart and the order `{id, amount, currency}`. -/
theorem processPayment_order_response_witness :
    getTotalAmount scenarioCart = .ok (.fin 1300) ∧ statusOk 200 = true ∧
    ∃ request options,
      processPayment scenarioCart
        { orderCreation := .response 200 (some (.obj [("id", .str "order_1"),
            ("amount", .num (.fin 130000)), ("currency", .str "INR")])),
          razorpayLoaded := true }
        = .ok [.createOrder request, .newRazorpay options, .rzpOpen] ∧
      options.order_id.isSome = true ∧ options.amount.isSome = true ∧
      options.currency.isSome = true := by
  obtain ⟨request, options, hrun, hid, hamount, hcurrency, -, -⟩ :=
    (processPayment_order_response scenarioCart
      { orderCreation := .response 200 (some (.obj [("id", .str "order_1"),
          ("amount", .num (.fin 130000)), ("currency", .str "INR")])),
        razorpayLoaded := true }
      (.fin 1300) 200 _ (by decide!) (by decide) rfl (by decide)).2.1 _ rfl
      (by simp) rfl
  refine ⟨by decide!, by decide, request, options, hrun, ?_, ?_, ?_⟩
  · simp only [JSON.getProp, Except.ok.injEq] at hid
    rw [← hid]; rfl
  · simp only [JSON.getProp, Except.ok.injEq] at hamount
    rw [← hamount]; rfl
  · simp only [JSON.getProp, Except.ok.injEq] at hcurrency
    rw [← hcurrency]; rfl

/-- Counterexample to C10 as stated: on a success response whose body is the object `{}`,
without order id, amount and currency, `processPayment` constructs the gateway with none
of the three and opens it, and shows no failure message. -/
theorem processPayment_opens_gateway_without_order :
    (processPayment scenarioCart
        { orderCreation := .response 200 (some (.obj [])), razorpayLoaded := true }).map
      (List.map Event.isGateway) = .ok [false, true, true] ∧
    (processPayment scenarioCart
        { orderCreation := .response 200 (some (.obj [])), razorpayLoaded := true }).map
      (List.map Event.gatewayWithoutOrder) = .ok [false, true, false] ∧
    (processPayment scenarioCart
        { orderCreation := .response 200 (some (.obj [])), razorpayLoaded := true }).map
      (List.map (Event.isAlert "Failed to process payment. Please try again."))
      = .ok [false, false, false] := by
  decide!

theorem alerts_handler (cart : Cart) (response : PaymentResponse)
    (verification : FetchOutcome) :
    alerts (handler cart response verification) =
      [processingMessage,
        match cartSummary cart, verification with
        | .ok _, .response _ (some result) =>
          match result.getProp "success" with
          | .ok value =>
            if truthy value then paymentSuccessfulMessage
            else verificationFailedMessage response
          | .error _ => verificationFailedMessage response
        | _, _ => verificationFailedMessage response] := by
  unfold handler handlerTry
  cases cartSummary cart with
  | error e => rfl
  | ok summaries =>
    cases verification with
    | failure => rfl
    | response status body =>
      cases body with
      | none => rfl
      | some result =>
        simp only
        cases result.getProp "success" with
        | error e => rfl
        | ok value =>
          simp only
          cases truthy value <;> rfl

theorem paymentSuccessfulMessage_ne_failed (response : PaymentResponse) :
    paymentSuccessfulMessage ≠ verificationFailedMessage response := by
  intro h
  have := congrArg (fun s : String => s.data.head?) h
  simp [paymentSuccessfulMessage, verificationFailedMessage] at this

theorem processingMessage_ne_failed (response : PaymentResponse) :
    processingMessage ≠ verificationFailedMessage response := by
  intro h
  have := congrArg (fun s : String => s.data.head?) h
  simp [processingMessage, verificationFailedMessage] at this

theorem handler_outcome (cart : Cart) (response : PaymentResponse)
    (verification : FetchOutcome) :
    ∃ outcome, alerts (handler cart response verification) = [processingMessage, outcome] ∧
      ((outcome = paymentSuccessfulMessage ∧
          ∃ summaries status result value, cartSummary cart = .ok summaries ∧
            verification = .response status (some result) ∧
            result.getProp "success" = .ok value ∧ truthy value = true) ∨
        (outcome = verificationFailedMessage response ∧
          ¬ ∃ summaries status result value, cartSummary cart = .ok summaries ∧
            verification = .response status (some result) ∧
            result.getProp "success" = .ok value ∧ truthy value = true)) := by
  rw [alerts_handler]
  cases hs : cartSummary cart with
  | error e =>
    refine ⟨_, rfl, Or.inr ⟨rfl, ?_⟩⟩
    rintro ⟨summaries, status, result, value, h, -⟩
    cases h
  | ok summaries =>
    cases verification with
    | failure =>
      refine ⟨_, rfl, Or.inr ⟨rfl, ?_⟩⟩
      rintro ⟨summaries', status, result, value, -, h, -⟩
      cases h
    | response status body =>
      cases body with
      | none =>
        refine ⟨_, rfl, Or.inr ⟨rfl, ?_⟩⟩
        rintro ⟨summaries', status', result, value, -, h, -⟩
        cases h
      | some result =>
        cases hp : result.getProp "success" with
        | error e =>
          refine ⟨_, rfl, Or.inr ⟨by simp [hp], ?_⟩⟩
          rintro ⟨summaries', status', result', value, -, h, hp', -⟩
          cases h
          rw [hp] at hp'
          cases hp'
        | ok value =>
          cases ht : truthy value with
          | false =>
            refine ⟨_, rfl, Or.inr ⟨by simp [hp, ht], ?_⟩⟩
            rintro ⟨summaries', status', result', value', -, h, hp', ht'⟩
            cases h
            rw [hp] at hp'
            cases hp'
            rw [ht] at ht'
            cases ht'
          | true =>
            exact ⟨_, rfl, Or.inl ⟨by simp [hp, ht], summaries, status, result, value, rfl, rfl,
              hp, ht⟩⟩

/-- C11: every invocation of the completion handler shows, after the progress notice,
exactly one outcome message: the success message, only when the verification response
carries a truthy `success` (and it does for an accepted cart and `{success: true}`), or
the failure message.  A rejected verification call, a body that does not parse and a
response whose `success` is `false` all give the failure message, which differs from the
other two messages and ends with the gateway payment id of the payment result. -/
theorem handler_resolves_once (cart : Cart) (response : PaymentResponse)
    (verification : FetchOutcome) :
    ∃ outcome, alerts (handler cart response verification) = [processingMessage, outcome] ∧
      (outcome = paymentSuccessfulMessage ∨ outcome = verificationFailedMessage response) ∧
      (outcome = paymentSuccessfulMessage →
        ∃ status result value, verification = .response status (some result) ∧
          result.getProp "success" = .ok value ∧ truthy value = true) ∧
      (∀ totalAmount status members, getTotalAmount cart = .ok totalAmount →
        verification = .response status (some (.obj members)) →
        members.lookup "success" = some (.bool true) → outcome = paymentSuccessfulMessage) ∧
      (verification = .failure → outcome = verificationFailedMessage response) ∧
      (∀ status, verification = .response status none →
        outcome = verificationFailedMessage response) ∧
      (∀ status members, verification = .response status (some (.obj members)) →
        members.lookup "success" = some (.bool false) →
        outcome = verificationFailedMessage response) ∧
      paymentSuccessfulMessage ≠ verificationFailedMessage response ∧
      processingMessage ≠ verificationFailedMessage response ∧
      processingMessage ≠ paymentSuccessfulMessage ∧
      (∃ lead, verificationFailedMessage response = lead ++ response.razorpay_payment_id) ∧
      response.razorpay_payment_id.data <:+: (verificationFailedMessage response).data := by
  obtain ⟨outcome, halerts, hcases⟩ := handler_outcome cart response verification
  have hne := paymentSuccessfulMessage_ne_failed response
  refine ⟨outcome, halerts, ?_, ?_, ?_, ?_, ?_, ?_, hne, processingMessage_ne_failed response,
    by decide, ⟨_, rfl⟩, ?_⟩
  · rcases hcases with ⟨h, -⟩ | ⟨h, -⟩
    · exact Or.inl h
    · exact Or.inr h
  · intro hsuccess
    rcases hcases with ⟨-, _, status, result, value, -, hv, hp, ht⟩ | ⟨h, -⟩
    · exact ⟨status, result, value, hv, hp, ht⟩
    · exact absurd (hsuccess.symm.trans h) hne
  · intro totalAmount status members htotal hv hsuccess
    rcases hcases with ⟨h, -⟩ | ⟨-, hnot⟩
    · exact h
    · obtain ⟨summaries, hs, -, -⟩ := cartSummary_of_getTotalAmount cart totalAmount htotal
      exact absurd ⟨summaries, status, .obj members, some (.bool true), hs, hv,
        by simp [JSON.getProp, hsuccess], rfl⟩ hnot
  · intro hv
    rcases hcases with ⟨-, _, status, result, value, -, hv', -⟩ | ⟨h, -⟩
    · rw [hv] at hv'
      cases hv'
    · exact h
  · intro status hv
    rcases hcases with ⟨-, _, status', result, value, -, hv', -⟩ | ⟨h, -⟩
    · rw [hv] at hv'
      cases hv'
    · exact h
  · intro status members hv hsuccess
    rcases hcases with ⟨-, _, status', result, value, -, hv', hp, ht⟩ | ⟨h, -⟩
    · rw [hv] at hv'
      cases hv'
      simp only [JSON.getProp, hsuccess, Except.ok.injEq] at hp
      subst hp
      simp [truthy] at ht
    · exact h
  · unfold verificationFailedMessage
    rw [String.data_append]
    exact (List.suffix_append _ _).isInfix

/-- The outcomes of C11 on the scenario cart: `{success: true}` gives the success message,
`{success: false}` and a rejected verification call give the failure message with the
payment id `pay_1`. -/
theorem handler_resolves_once_witness :
    alerts (handler scenarioCart samplePayment
      (.response 200 (some (.obj [("success", .bool true)]))))
      = [processingMessage, paymentSuccessfulMessage] ∧
    alerts (handler scenarioCart samplePayment
      (.response 200 (some (.obj [("success", .bool false)]))))
      = [processingMessage,
         "‚ùå Payment verification failed. Please contact our support team with payment ID: pay_1"] ∧
    alerts (handler scenarioCart samplePayment .failure)
      = [processingMessage,
         "‚ùå Payment verification failed. Please contact our support team with payment ID: pay_1"] ∧
    ∃ outcome, alerts (handler scenarioCart samplePayment .failure)
      = [processingMessage, outcome] ∧
      "pay_1".data <:+: outcome.data := by
  refine ⟨by decide!, by decide!, by decide!, ?_⟩
  obtain ⟨outcome, halerts, -, -, -, hfail, -, -, -, -, -, -, hid⟩ :=
    handler_resolves_once scenarioCart samplePayment .failure
  exact ⟨outcome, halerts, by rw [hfail rfl]; exact hid⟩

end Undhyu
